import Mathlib

/-!
# AnkiLink — verification of the sync engine against its specification

Shallow embedding of the AnkiLink Obsidian plugin's core logic:

* `src/src/syncUtil.ts` — document parser, body formatter and the
  reconciliation engine (`syncVaultNotes` and its helpers);
* `src/src/ankiConnectUtil.ts` — note construction (`buildNote`),
  tag handling (`noteHasTag`), response validation (`isValidNoteInfo`);
* `src/src/regexUtil.ts` — the flashcard preamble pattern `FC_PREAMBLE_P`.

The prose renderer (`remark` with GFM/breaks/html plugins) is an external
library, not repository code; everywhere it is needed it is abstracted as
an explicit function parameter `md : String → String` standing for
`String(MARKDOWN_PROCESSOR.processSync(x)).trim()`.

The AnkiConnect server is likewise external; for two-run reasoning its
reaction to the staged mutation batch is modelled from the spec
(§4.5/§6 of the specification) in the `Remote` section below.
-/

namespace AnkiLink

/-- `ANKI_LINK_TAG` from `ankiConnectUtil.ts`. -/
def ANKI_LINK_TAG : String := "ankiLink"

/-- `ANKI_LINK_MODEL_NAME` from `ankiConnectUtil.ts`. -/
def ANKI_LINK_MODEL_NAME : String := "AnkiLink Basic"

/-- `NoteFields` from `ankiConnectUtil.ts`: the two fields of a flashcard. -/
structure NoteFields where
  Front : String
  Back : String
deriving DecidableEq, Repr

/-- `Note` from `ankiConnectUtil.ts` (the payload sent to `addNotes`).
`options.allowDuplicate` is flattened to `allowDuplicate`. -/
structure Note where
  deckName : String
  modelName : String
  fields : NoteFields
  tags : List String
  allowDuplicate : Bool
deriving DecidableEq, Repr

/-- A field entry of a fetched note: `{ value: string; order: number }`
with the unused `order` omitted. -/
structure FieldWithValue where
  value : String
deriving DecidableEq, Repr

/-- The `fields` component of `NoteInfo` from `ankiConnectUtil.ts`. -/
structure NoteInfoFields where
  Front : FieldWithValue
  Back : FieldWithValue
deriving DecidableEq, Repr

/-- `NoteInfo` from `ankiConnectUtil.ts`: a note as returned by the
`notesInfo` bulk fetch (the unused `modelName` is omitted). -/
structure NoteInfo where
  noteId : Nat
  tags : List String
  cards : List Nat
  fields : NoteInfoFields
deriving DecidableEq, Repr

/-- `buildNote` from `ankiConnectUtil.ts`: every note submitted for creation
is built with the managed tag already present. -/
def buildNote (Front Back deckName : String) : Note :=
  { deckName := deckName
    modelName := ANKI_LINK_MODEL_NAME
    fields := { Front := Front, Back := Back }
    tags := [ANKI_LINK_TAG]
    allowDuplicate := true }

/-- `noteHasTag` from `ankiConnectUtil.ts`:
`note.tags.some((t) => t.toLowerCase() === tag.toLowerCase())`. -/
def noteHasTag (note : NoteInfo) (tag : String) : Bool :=
  note.tags.any (fun currentTag => currentTag.toLower = tag.toLower)

/-- `noteFieldsDiffer` from `syncUtil.ts`. -/
def noteFieldsDiffer (obsidianFields : NoteFields) (ankiFields : NoteInfoFields) : Bool :=
  obsidianFields.Front ≠ ankiFields.Front.value ∨ obsidianFields.Back ≠ ankiFields.Back.value

section BodyFormatter

/-- The three fence markers recognised by `lexLine` in `syncUtil.ts`:
` ``` `, `~~~` and `$$`. -/
inductive FenceMarker where
  | backtick
  | tilde
  | dollar
deriving DecidableEq, Repr

/-- `BodyToken` from `syncUtil.ts`. -/
inductive BodyToken where
  | text (raw : String)
  | fence (raw : String) (marker : FenceMarker) (info : String)
deriving DecidableEq, Repr

/-- The raw line a token was lexed from. -/
def BodyToken.raw : BodyToken → String
  | .text raw => raw
  | .fence raw _ _ => raw

/-- `BodySegment` from `syncUtil.ts`. -/
inductive BodySegment where
  | text (lines : List String)
  | code (language : String) (code : String)
  | math (latex : String)
deriving DecidableEq, Repr

/-- The characters matched by the regex class `\s` (ASCII portion):
space, tab, line feed, vertical tab, form feed, carriage return. -/
def isJsSpace (c : Char) : Bool :=
  c = ' ' ∨ c = '\t' ∨ c = '\n' ∨ c = '\r' ∨ c = Char.ofNat 11 ∨ c = Char.ofNat 12

/-- JavaScript `String.prototype.trim`: strip whitespace from both ends. -/
def jsTrimChars (cs : List Char) : List Char :=
  ((cs.dropWhile isJsSpace).reverse.dropWhile isJsSpace).reverse

/-- `lexLine` from `syncUtil.ts`: per-line, purely lexical classification
(`trim`/`startsWith`/`slice` realised on the line's character list). -/
def lexLine (line : String) : BodyToken :=
  if jsTrimChars line.data = "$$".data then
    .fence line .dollar ""
  else if (jsTrimChars line.data).take 3 = "```".data then
    .fence line .backtick (jsTrimChars ((jsTrimChars line.data).drop 3)).asString
  else if (jsTrimChars line.data).take 3 = "~~~".data then
    .fence line .tilde (jsTrimChars ((jsTrimChars line.data).drop 3)).asString
  else
    .text line

/-- `lexBody` from `syncUtil.ts`. -/
def lexBody (lines : List String) : List BodyToken :=
  lines.map lexLine

/-- Whether a token closes a fence of marker `m`: in
`findClosingFenceToken`, a close is a fence token of the same marker whose
info string is empty. -/
def isClosingFence (m : FenceMarker) : BodyToken → Bool
  | .text _ => false
  | .fence _ marker info => marker = m && info = ""

/-- `findClosingFenceToken` from `syncUtil.ts`, phrased on the suffix of the
token list after the opening fence: returns the tokens strictly between the
open and the first matching close, the close token itself, and the tokens
after the close, or `none` if no matching close exists. -/
def findClosingFence (m : FenceMarker) : List BodyToken → Option (List BodyToken × BodyToken × List BodyToken)
  | [] => none
  | t :: ts =>
    if isClosingFence m t then
      some ([], t, ts)
    else
      match findClosingFence m ts with
      | some (pre, ctok, rest) => some (t :: pre, ctok, rest)
      | none => none

theorem findClosingFence_decomp {m : FenceMarker} {ts pre rest : List BodyToken} {ctok : BodyToken}
    (h : findClosingFence m ts = some (pre, ctok, rest)) :
    ts = pre ++ ctok :: rest ∧ isClosingFence m ctok = true := by
  induction ts generalizing pre with
  | nil => simp [findClosingFence] at h
  | cons t ts ih =>
    by_cases hc : isClosingFence m t
    · simp [findClosingFence, hc] at h
      obtain ⟨h1, h2, h3⟩ := h
      subst h1; subst h2; subst h3
      exact ⟨rfl, hc⟩
    · simp only [findClosingFence, hc, Bool.false_eq_true, if_false] at h
      cases hrec : findClosingFence m ts with
      | none => simp [hrec] at h
      | some val =>
        obtain ⟨pre', ctok', rest'⟩ := val
        simp [hrec] at h
        obtain ⟨h1, h2, h3⟩ := h
        subst h1; subst h2; subst h3
        obtain ⟨hd, hcl⟩ := ih hrec
        exact ⟨by simp [hd], hcl⟩

theorem findClosingFence_rest_length {m : FenceMarker} {ts pre rest : List BodyToken} {ctok : BodyToken}
    (h : findClosingFence m ts = some (pre, ctok, rest)) :
    rest.length < ts.length := by
  obtain ⟨hd, _⟩ := findClosingFence_decomp h
  subst hd
  simp
  omega

/-- `join("\n")` as used throughout `syncUtil.ts`. -/
def joinNL : List String → String
  | [] => ""
  | [x] => x
  | x :: xs => x ++ "\n" ++ joinNL xs

/-- The `flushText` closure of `parseBodyTokens`: pushes the pending text
buffer as a `Text` segment if it is non-empty. -/
def flushText (textBuffer : List String) (segments : List BodySegment) : List BodySegment :=
  if textBuffer.isEmpty then segments else .text textBuffer :: segments

/-- The segment emitted for a matched fence region in `parseBodyTokens`:
for `$$` a `Math` segment, otherwise a `Code` segment carrying the opening
fence's info string as language; content joins the interior lines. -/
def fenceSegment (m : FenceMarker) (info : String) (interior : List BodyToken) : BodySegment :=
  match m with
  | .dollar => .math (joinNL (interior.map BodyToken.raw))
  | .backtick => .code info (joinNL (interior.map BodyToken.raw))
  | .tilde => .code info (joinNL (interior.map BodyToken.raw))

/-- The main loop of `parseBodyTokens` from `syncUtil.ts`, with the scan
index replaced by the remaining token suffix and the mutable text buffer
made an explicit accumulator. An unmatched fence is appended to the text
buffer (`// Keep unmatched fences as regular text to avoid dropping
content.`); a matched fence flushes the buffer and emits one segment. -/
def parseBodyTokensAux (textBuffer : List String) : List BodyToken → List BodySegment
  | [] => flushText textBuffer []
  | t :: ts =>
    match t with
    | .text raw => parseBodyTokensAux (textBuffer ++ [raw]) ts
    | .fence raw m info =>
      match hf : findClosingFence m ts with
      | none => parseBodyTokensAux (textBuffer ++ [raw]) ts
      | some (pre, _ctok, rest) =>
        flushText textBuffer (fenceSegment m info pre :: parseBodyTokensAux [] rest)
termination_by ts => ts.length
decreasing_by
  all_goals simp_wf
  all_goals first
    | omega
    | (have h9 := findClosingFence_rest_length hf; omega)

/-- `parseBodyTokens` from `syncUtil.ts`. -/
def parseBodyTokens (tokens : List BodyToken) : List BodySegment :=
  parseBodyTokensAux [] tokens

theorem parseBodyTokensAux_nil (buf : List String) :
    parseBodyTokensAux buf [] = flushText buf [] := by
  rw [parseBodyTokensAux]

theorem parseBodyTokensAux_cons_text (buf : List String) (raw : String) (ts : List BodyToken) :
    parseBodyTokensAux buf (.text raw :: ts) = parseBodyTokensAux (buf ++ [raw]) ts := by
  rw [parseBodyTokensAux]

theorem parseBodyTokensAux_cons_fence_none {m : FenceMarker} {ts : List BodyToken}
    (buf : List String) (raw info : String) (h : findClosingFence m ts = none) :
    parseBodyTokensAux buf (.fence raw m info :: ts) = parseBodyTokensAux (buf ++ [raw]) ts := by
  rw [parseBodyTokensAux, h]

theorem parseBodyTokensAux_cons_fence_some {m : FenceMarker} {ts pre rest : List BodyToken}
    {ctok : BodyToken} (buf : List String) (raw info : String)
    (h : findClosingFence m ts = some (pre, ctok, rest)) :
    parseBodyTokensAux buf (.fence raw m info :: ts) =
      flushText buf (fenceSegment m info pre :: parseBodyTokensAux [] rest) := by
  rw [parseBodyTokensAux, h]

theorem lexLine_raw (line : String) : (lexLine line).raw = line := by
  unfold lexLine
  split
  · rfl
  · split
    · rfl
    · split
      · rfl
      · rfl

theorem lexBody_map_raw (lines : List String) : (lexBody lines).map BodyToken.raw = lines := by
  unfold lexBody
  rw [List.map_map]
  have : BodyToken.raw ∘ lexLine = id := by
    funext l
    exact lexLine_raw l
  rw [this, List.map_id]

theorem joinNL_cons_of_ne (x : String) (xs : List String) (h : xs ≠ []) :
    joinNL (x :: xs) = x ++ "\n" ++ joinNL xs := by
  match xs with
  | [] => contradiction
  | y :: ys => rfl

theorem joinNL_append {xs ys : List String} (hx : xs ≠ []) (hy : ys ≠ []) :
    joinNL (xs ++ ys) = joinNL xs ++ "\n" ++ joinNL ys := by
  induction xs with
  | nil => contradiction
  | cons a xs ih =>
    match xs with
    | [] =>
      rw [List.singleton_append, joinNL_cons_of_ne a ys hy]
      rfl
    | b :: xs2 =>
      rw [List.cons_append, joinNL_cons_of_ne a ((b :: xs2) ++ ys) (by simp),
        joinNL_cons_of_ne a (b :: xs2) (by simp), ih (by simp)]
      simp [String.append_assoc]

theorem joinNL_mem_split {xs : List String} {x : String} (h : x ∈ xs) :
    ∃ a b, joinNL xs = a ++ x ++ b := by
  induction xs with
  | nil => simp at h
  | cons y ys ih =>
    rcases List.mem_cons.mp h with rfl | hmem
    · match ys with
      | [] => exact ⟨"", "", by simp [joinNL, String.append_empty, String.empty_append]⟩
      | z :: zs =>
        refine ⟨"", "\n" ++ joinNL (z :: zs), ?_⟩
        rw [joinNL_cons_of_ne x (z :: zs) (by simp), String.empty_append, String.append_assoc]
    · obtain ⟨a, b, hab⟩ := ih hmem
      have hys : ys ≠ [] := by rintro rfl; simp at hmem
      refine ⟨y ++ "\n" ++ a, b, ?_⟩
      rw [joinNL_cons_of_ne y ys hys, hab]
      simp [String.append_assoc]

theorem parseBodyTokensAux_buffer_mem :
    ∀ (buf : List String) (ts : List BodyToken), ∀ l ∈ buf,
      ∃ ls, BodySegment.text ls ∈ parseBodyTokensAux buf ts ∧ l ∈ ls := by
  intro buf ts
  induction buf, ts using parseBodyTokensAux.induct with
  | case1 buf =>
    intro l hl
    refine ⟨buf, ?_, hl⟩
    rw [parseBodyTokensAux_nil, flushText, if_neg (by simp; rintro rfl; simp at hl)]
    exact List.mem_singleton.mpr rfl
  | case2 buf ts a ih =>
    intro l hl
    rw [parseBodyTokensAux_cons_text]
    exact ih l (List.mem_append_left _ hl)
  | case3 buf ts a m info hf ih =>
    intro l hl
    rw [parseBodyTokensAux_cons_fence_none buf a info hf]
    exact ih l (List.mem_append_left _ hl)
  | case4 buf ts a m info pre ctok rest hf ih =>
    intro l hl
    rw [parseBodyTokensAux_cons_fence_some buf a info hf]
    refine ⟨buf, ?_, hl⟩
    rw [flushText, if_neg (by simp; rintro rfl; simp at hl)]
    exact List.mem_cons_self _ _

theorem parseBodyTokensAux_ne_nil :
    ∀ (buf : List String) (ts : List BodyToken), buf ≠ [] ∨ ts ≠ [] →
      parseBodyTokensAux buf ts ≠ [] := by
  intro buf ts
  induction buf, ts using parseBodyTokensAux.induct with
  | case1 buf =>
    intro h
    rcases h with h | h
    · rw [parseBodyTokensAux_nil, flushText, if_neg (by simpa using h)]
      simp
    · exact absurd rfl h
  | case2 buf ts a ih =>
    intro _
    rw [parseBodyTokensAux_cons_text]
    exact ih (Or.inl (by simp))
  | case3 buf ts a m info hf ih =>
    intro _
    rw [parseBodyTokensAux_cons_fence_none buf a info hf]
    exact ih (Or.inl (by simp))
  | case4 buf ts a m info pre ctok rest hf ih =>
    intro _
    rw [parseBodyTokensAux_cons_fence_some buf a info hf, flushText]
    split <;> simp

/-- The canonical spelling of a fence line of a given marker and info
string: exactly the line the spec's reconstruction reading of §8 assigns
to a `Code`/`Math` segment's fence-open and fence-close lines. Tilde
fences have no canonical spelling because the emitted `Code` segment does
not record which code marker opened it. -/
def canonicalFenceRaw (m : FenceMarker) (raw info : String) : Bool :=
  match m with
  | .backtick => raw = "```" ++ info
  | .tilde => false
  | .dollar => raw = "$$"

/-- The side condition under which the §8 segment-concatenation round-trip
holds: every *matched* fence pair is canonically spelled (which also rules
out matched tilde fences) and no matched region consists of exactly one
empty line (such a region is indistinguishable from an empty region in the
emitted segment). Unmatched fences are unconstrained — they are kept as
plain text verbatim. -/
def goodTokens : List BodyToken → Bool
  | [] => true
  | t :: ts =>
    match t with
    | .text _ => goodTokens ts
    | .fence raw m info =>
      match hf : findClosingFence m ts with
      | none => goodTokens ts
      | some (pre, ctok, rest) =>
        canonicalFenceRaw m raw info && canonicalFenceRaw m ctok.raw "" &&
          (pre.isEmpty || !(joinNL (pre.map BodyToken.raw) = "")) && goodTokens rest
termination_by ts => ts.length
decreasing_by
  all_goals simp_wf
  all_goals first
    | omega
    | (have h9 := findClosingFence_rest_length hf; omega)

theorem goodTokens_nil : goodTokens [] = true := by rw [goodTokens]

theorem goodTokens_cons_text (raw : String) (ts : List BodyToken) :
    goodTokens (.text raw :: ts) = goodTokens ts := by
  rw [goodTokens]

theorem goodTokens_cons_fence_none {m : FenceMarker} {ts : List BodyToken}
    (raw info : String) (h : findClosingFence m ts = none) :
    goodTokens (.fence raw m info :: ts) = goodTokens ts := by
  rw [goodTokens, h]

theorem goodTokens_cons_fence_some {m : FenceMarker} {ts pre rest : List BodyToken}
    {ctok : BodyToken} (raw info : String) (h : findClosingFence m ts = some (pre, ctok, rest)) :
    goodTokens (.fence raw m info :: ts) =
      (canonicalFenceRaw m raw info && canonicalFenceRaw m ctok.raw "" &&
        (pre.isEmpty || !(joinNL (pre.map BodyToken.raw) = "")) && goodTokens rest) := by
  rw [goodTokens, h]

/-- Modelled from the spec (§8 "Segment concatenation" / §3 `BodySegment`
invariant): the unrendered text reconstructable from one segment — a text
segment's lines verbatim; a code/math segment's fence-open line, interior
lines and fence-close line, joined by newlines. -/
def segmentUnrenderedText : BodySegment → String
  | .text lines => joinNL lines
  | .code language code =>
    if code = "" then "```" ++ language ++ "\n" ++ "```"
    else "```" ++ language ++ "\n" ++ code ++ "\n" ++ "```"
  | .math latex =>
    if latex = "" then "$$" ++ "\n" ++ "$$"
    else "$$" ++ "\n" ++ latex ++ "\n" ++ "$$"

/-- Modelled from the spec (§8 "Segment concatenation"): the concatenation
of the unrendered lines reconstructable from all segments, in order. -/
def reconstructedBody (segments : List BodySegment) : String :=
  joinNL (segments.map segmentUnrenderedText)

theorem joinNL_fence_block (openS closeS : String) (prs : List String)
    (h : prs = [] ∨ joinNL prs ≠ "") :
    joinNL (openS :: (prs ++ [closeS])) =
      if joinNL prs = "" then openS ++ "\n" ++ closeS
      else openS ++ "\n" ++ joinNL prs ++ "\n" ++ closeS := by
  rcases h with rfl | h
  · simp [joinNL]
  · rw [if_neg h]
    have hprs : prs ≠ [] := by rintro rfl; exact h rfl
    rw [joinNL_cons_of_ne openS (prs ++ [closeS]) (by simp), joinNL_append hprs (by simp : ([closeS] : List String) ≠ [])]
    have hone : joinNL [closeS] = closeS := rfl
    rw [hone]
    simp [String.append_assoc]

theorem segmentUnrenderedText_fenceSegment {m : FenceMarker} {raw info ctraw : String}
    {pre : List BodyToken}
    (hopen : canonicalFenceRaw m raw info = true)
    (hclose : canonicalFenceRaw m ctraw "" = true)
    (hpre : (pre.isEmpty || !(joinNL (pre.map BodyToken.raw) = "")) = true) :
    segmentUnrenderedText (fenceSegment m info pre) =
      joinNL (raw :: (pre.map BodyToken.raw ++ [ctraw])) := by
  have hpre' : pre.map BodyToken.raw = [] ∨ joinNL (pre.map BodyToken.raw) ≠ "" := by
    rcases Bool.or_eq_true_iff.mp hpre with h | h
    · exact Or.inl (by simp [List.isEmpty_iff.mp h])
    · exact Or.inr (by simpa using h)
  cases m with
  | tilde => simp [canonicalFenceRaw] at hopen
  | backtick =>
    have ho : raw = "```" ++ info := by simpa [canonicalFenceRaw] using hopen
    have hc : ctraw = "```" := by
      have := by simpa [canonicalFenceRaw] using hclose
      simpa [String.append_empty] using this
    subst ho; subst hc
    rw [joinNL_fence_block _ _ _ hpre']
    rw [fenceSegment]
    rw [segmentUnrenderedText]
  | dollar =>
    have ho : raw = "$$" := by simpa [canonicalFenceRaw] using hopen
    have hc : ctraw = "$$" := by simpa [canonicalFenceRaw] using hclose
    subst ho; subst hc
    rw [joinNL_fence_block _ _ _ hpre']
    rw [fenceSegment]
    rw [segmentUnrenderedText]

theorem parseBodyTokensAux_reconstruct :
    ∀ (buf : List String) (ts : List BodyToken), goodTokens ts = true →
      reconstructedBody (parseBodyTokensAux buf ts) = joinNL (buf ++ ts.map BodyToken.raw) := by
  intro buf ts
  induction buf, ts using parseBodyTokensAux.induct with
  | case1 buf =>
    intro _
    rw [parseBodyTokensAux_nil, List.map_nil, List.append_nil, flushText]
    by_cases hb : buf.isEmpty
    · rw [if_pos hb, List.isEmpty_iff.mp hb]
      rfl
    · rw [if_neg hb, reconstructedBody]
      simp [segmentUnrenderedText, joinNL]
  | case2 buf ts a ih =>
    intro hg
    rw [goodTokens_cons_text] at hg
    rw [parseBodyTokensAux_cons_text, ih hg, List.map_cons]
    rw [List.append_assoc, List.singleton_append]
    rfl
  | case3 buf ts a m info hf ih =>
    intro hg
    rw [goodTokens_cons_fence_none a info hf] at hg
    rw [parseBodyTokensAux_cons_fence_none buf a info hf, ih hg, List.map_cons]
    rw [List.append_assoc, List.singleton_append]
    rfl
  | case4 buf ts a m info pre ctok rest hf ih =>
    intro hg
    rw [goodTokens_cons_fence_some a info hf] at hg
    simp only [Bool.and_eq_true] at hg
    obtain ⟨⟨⟨hopen, hclose⟩, hpre⟩, hgrest⟩ := hg
    obtain ⟨hdecomp, _⟩ := findClosingFence_decomp hf
    rw [parseBodyTokensAux_cons_fence_some buf a info hf]
    have hseg := segmentUnrenderedText_fenceSegment hopen hclose
      (by rw [Bool.or_eq_true_iff]; exact Bool.or_eq_true_iff.mp hpre)
    have hrawts : (BodyToken.fence a m info :: ts).map BodyToken.raw =
        (a :: (pre.map BodyToken.raw ++ [ctok.raw])) ++ rest.map BodyToken.raw := by
      rw [hdecomp]
      simp [BodyToken.raw]
    have claimA : joinNL ((fenceSegment m info pre :: parseBodyTokensAux [] rest).map segmentUnrenderedText) =
        joinNL ((a :: (pre.map BodyToken.raw ++ [ctok.raw])) ++ rest.map BodyToken.raw) := by
      by_cases hrest : rest = []
      · subst hrest
        rw [parseBodyTokensAux_nil]
        have : flushText [] [] = ([] : List BodySegment) := by rw [flushText]; simp
        rw [this]
        simp only [List.map_cons, List.map_nil, List.append_nil]
        have hj : joinNL [segmentUnrenderedText (fenceSegment m info pre)] =
            segmentUnrenderedText (fenceSegment m info pre) := rfl
        rw [hj, hseg]
      · have hT : parseBodyTokensAux [] rest ≠ [] :=
          parseBodyTokensAux_ne_nil [] rest (Or.inr hrest)
        rw [List.map_cons, joinNL_cons_of_ne _ _ (by simpa using hT)]
        have hihT : joinNL ((parseBodyTokensAux [] rest).map segmentUnrenderedText) =
            joinNL (rest.map BodyToken.raw) := by
          have := ih hgrest
          rw [reconstructedBody] at this
          simpa using this
        rw [hihT, hseg]
        rw [joinNL_append
          (show (a :: (pre.map BodyToken.raw ++ [ctok.raw])) ≠ [] by simp)
          (show rest.map BodyToken.raw ≠ [] by simpa using hrest)]
    rw [flushText]
    by_cases hb : buf.isEmpty
    · rw [if_pos hb, List.isEmpty_iff.mp hb, List.nil_append, reconstructedBody, claimA, hrawts]
    · rw [if_neg hb, reconstructedBody, List.map_cons]
      have hbuf : buf ≠ [] := by simpa [List.isEmpty_iff] using hb
      rw [joinNL_cons_of_ne _ _ (by simp)]
      have hst : segmentUnrenderedText (BodySegment.text buf) = joinNL buf := rfl
      rw [hst, claimA, hrawts]
      rw [joinNL_append hbuf (by simp)]

/-- `MATH_INLINE_OPEN` from `syncUtil.ts`. -/
def MATH_INLINE_OPEN : String := "\\("

/-- `MATH_INLINE_CLOSE` from `syncUtil.ts`. -/
def MATH_INLINE_CLOSE : String := "\\)"

/-- `MATH_BLOCK_OPEN` from `syncUtil.ts`. -/
def MATH_BLOCK_OPEN : String := "\\["

/-- `MATH_BLOCK_CLOSE` from `syncUtil.ts`. -/
def MATH_BLOCK_CLOSE : String := "\\]"

/-- The backtick character (code point 96). -/
def backtickChar : Char := Char.ofNat 96

/-- `isEscaped` from `syncUtil.ts`: counts the consecutive backslashes
immediately before `idx` and reports odd parity. The source walks indices
`idx-1, idx-2, …` while they hold a backslash; that is the length of the
maximal backslash suffix of the prefix before `idx`. -/
def isEscaped (input : List Char) (idx : Nat) : Bool :=
  ((input.take idx).reverse.takeWhile (fun c => c = '\\')).length % 2 = 1

/-- `countSameCharRun` from `syncUtil.ts`. -/
def countSameCharRun (input : List Char) (startIdx : Nat) (char : Char) : Nat :=
  ((input.drop startIdx).takeWhile (fun c => c = char)).length

/-- `findMatchingTickRun` from `syncUtil.ts`: first index `≥ startIdx`
holding an unescaped backtick run of exactly `tickRunLength`. -/
def findMatchingTickRun (input : List Char) (startIdx tickRunLength : Nat) : Option Nat :=
  if _h : startIdx < input.length then
    if input.get? startIdx ≠ some backtickChar ∨ isEscaped input startIdx then
      findMatchingTickRun input (startIdx + 1) tickRunLength
    else if countSameCharRun input startIdx backtickChar = tickRunLength then
      some startIdx
    else
      findMatchingTickRun input (startIdx + 1) tickRunLength
  else none
termination_by input.length - startIdx

/-- `findInlineMathEnd` from `syncUtil.ts`: first unescaped closing dollar
position, where in double-dollar mode the close must be followed by a
second dollar and in single-dollar mode it must not be. -/
def findInlineMathEnd (input : List Char) (startIdx : Nat) (isDoubleDollar : Bool) : Option Nat :=
  if _h : startIdx < input.length then
    if input.get? startIdx ≠ some '$' then
      findInlineMathEnd input (startIdx + 1) isDoubleDollar
    else if isEscaped input startIdx then
      findInlineMathEnd input (startIdx + 1) isDoubleDollar
    else if isDoubleDollar then
      if input.get? (startIdx + 1) = some '$' then some startIdx
      else findInlineMathEnd input (startIdx + 1) isDoubleDollar
    else
      if input.get? (startIdx + 1) = some '$' then
        findInlineMathEnd input (startIdx + 1) isDoubleDollar
      else some startIdx
  else none
termination_by input.length - startIdx

/-- `consumeInlineCode` from `syncUtil.ts`: recognise a backtick-delimited
inline code span at `startIdx` and return its verbatim text and length
(the source's locals `tickRunLength` and `endIdx` are inlined). -/
def consumeInlineCode (input : List Char) (startIdx : Nat) : Option (List Char × Nat) :=
  if input.get? startIdx ≠ some backtickChar ∨ isEscaped input startIdx then
    none
  else
    match findMatchingTickRun input (startIdx + countSameCharRun input startIdx backtickChar)
        (countSameCharRun input startIdx backtickChar) with
    | none => none
    | some closeTickIdx =>
      some ((input.drop startIdx).take
              (closeTickIdx + countSameCharRun input startIdx backtickChar - startIdx),
            closeTickIdx + countSameCharRun input startIdx backtickChar - startIdx)

/-- `consumeInlineMath` from `syncUtil.ts`: recognise a `$…$` or `$$…$$`
inline math span at `startIdx`; returns
`(placeholder, replacement, length, nextPlaceholderCounter)`. The source's
`isDoubleDollar`/`openDelimiterLength`/`closeDelimiterLength` locals are
specialised into the two branches of the double-dollar test. -/
def consumeInlineMath (input : List Char) (startIdx placeholderCounter : Nat) :
    Option (String × String × Nat × Nat) :=
  if input.get? startIdx ≠ some '$' ∨ isEscaped input startIdx then
    none
  else if input.get? (startIdx + 1) = some '$' then
    match findInlineMathEnd input (startIdx + 2) true with
    | none => none
    | some closeIdx =>
      some ("ANKILINK_MATH_" ++ toString placeholderCounter ++ "_TOKEN",
            MATH_INLINE_OPEN ++ ((input.drop (startIdx + 2)).take (closeIdx - (startIdx + 2))).asString
              ++ MATH_INLINE_CLOSE,
            closeIdx + 2 - startIdx, placeholderCounter + 1)
  else
    match findInlineMathEnd input (startIdx + 1) false with
    | none => none
    | some closeIdx =>
      some ("ANKILINK_MATH_" ++ toString placeholderCounter ++ "_TOKEN",
            MATH_INLINE_OPEN ++ ((input.drop (startIdx + 1)).take (closeIdx - (startIdx + 1))).asString
              ++ MATH_INLINE_CLOSE,
            closeIdx + 1 - startIdx, placeholderCounter + 1)

theorem findMatchingTickRun_ge {input : List Char} {s len j : Nat}
    (h : findMatchingTickRun input s len = some j) : s ≤ j := by
  induction s, len using findMatchingTickRun.induct input with
  | case1 s len hlt hc ih =>
    rw [findMatchingTickRun, dif_pos hlt, if_pos hc] at h
    exact Nat.le_of_succ_le (ih h)
  | case2 s hlt hc =>
    rw [findMatchingTickRun, dif_pos hlt, if_neg hc, if_pos rfl] at h
    simp at h; omega
  | case3 s len hlt hc hrun ih =>
    rw [findMatchingTickRun, dif_pos hlt, if_neg hc, if_neg hrun] at h
    exact Nat.le_of_succ_le (ih h)
  | case4 s len hlt =>
    rw [findMatchingTickRun, dif_neg hlt] at h
    exact absurd h (by simp)

theorem findInlineMathEnd_ge {input : List Char} {s : Nat} {d : Bool} {j : Nat}
    (h : findInlineMathEnd input s d = some j) : s ≤ j := by
  induction s, d using findInlineMathEnd.induct input with
  | case1 s d hlt hc ih =>
    rw [findInlineMathEnd, dif_pos hlt, if_pos hc] at h
    exact Nat.le_of_succ_le (ih h)
  | case2 s d hlt hc hesc ih =>
    rw [findInlineMathEnd, dif_pos hlt, if_neg hc, if_pos hesc] at h
    exact Nat.le_of_succ_le (ih h)
  | case3 s hlt hc hesc hnext =>
    rw [findInlineMathEnd, dif_pos hlt, if_neg hc, if_neg hesc, if_pos rfl, if_pos hnext] at h
    simp at h; omega
  | case4 s hlt hc hesc hnext ih =>
    rw [findInlineMathEnd, dif_pos hlt, if_neg hc, if_neg hesc, if_pos rfl, if_neg hnext] at h
    exact Nat.le_of_succ_le (ih h)
  | case5 s d hlt hc hesc hd hnext ih =>
    rw [findInlineMathEnd, dif_pos hlt, if_neg hc, if_neg hesc, if_neg hd, if_pos hnext] at h
    exact Nat.le_of_succ_le (ih h)
  | case6 s d hlt hc hesc hd hnext =>
    rw [findInlineMathEnd, dif_pos hlt, if_neg hc, if_neg hesc, if_neg hd, if_neg hnext] at h
    simp at h; omega
  | case7 s d hlt =>
    rw [findInlineMathEnd, dif_neg hlt] at h
    exact absurd h (by simp)

theorem countSameCharRun_pos {input : List Char} {startIdx : Nat} {char : Char}
    (h : input.get? startIdx = some char) : 1 ≤ countSameCharRun input startIdx char := by
  unfold countSameCharRun
  have hd : (input.drop startIdx).head? = some char := by
    rw [List.head?_drop]
    rw [List.get?_eq_getElem?] at h
    exact h
  match hm : input.drop startIdx with
  | [] => rw [hm] at hd; simp at hd
  | c :: cs =>
    rw [hm] at hd
    simp at hd
    subst hd
    simp [List.takeWhile]

theorem consumeInlineCode_pos {input : List Char} {startIdx : Nat} {t : List Char} {len : Nat}
    (h : consumeInlineCode input startIdx = some (t, len)) : 1 ≤ len := by
  unfold consumeInlineCode at h
  split at h
  · exact absurd h (by simp)
  · rename_i hcond
    push_neg at hcond
    have hrun := countSameCharRun_pos hcond.1
    split at h
    · exact absurd h (by simp)
    · rename_i closeTickIdx hfind
      have hge := findMatchingTickRun_ge hfind
      simp only [Option.some.injEq, Prod.mk.injEq] at h
      omega

theorem consumeInlineMath_pos {input : List Char} {startIdx c : Nat} {p r : String} {len nc : Nat}
    (h : consumeInlineMath input startIdx c = some (p, r, len, nc)) : 1 ≤ len := by
  unfold consumeInlineMath at h
  split at h
  · exact absurd h (by simp)
  · split at h
    · split at h
      · exact absurd h (by simp)
      · rename_i closeIdx hfind
        have hge := findInlineMathEnd_ge hfind
        simp only [Option.some.injEq, Prod.mk.injEq] at h
        omega
    · split at h
      · exact absurd h (by simp)
      · rename_i closeIdx hfind
        have hge := findInlineMathEnd_ge hfind
        simp only [Option.some.injEq, Prod.mk.injEq] at h
        omega

/-- The scan loop of `extractInlineMathPlaceholders` from `syncUtil.ts`,
with the mutable `output`, `replacements` and `placeholderCounter` made
explicit accumulators. -/
def extractInlineMathAux (input : List Char) (i placeholderCounter : Nat)
    (output : String) (replacements : List (String × String)) :
    String × List (String × String) :=
  if _h : i < input.length then
    match hc : consumeInlineCode input i with
    | some (text, len) =>
      extractInlineMathAux input (i + len) placeholderCounter (output ++ text.asString) replacements
    | none =>
      match hm : consumeInlineMath input i placeholderCounter with
      | none =>
        extractInlineMathAux input (i + 1) placeholderCounter
          (output ++ ((input.drop i).take 1).asString) replacements
      | some (placeholder, replacement, len, next) =>
        extractInlineMathAux input (i + len) next (output ++ placeholder)
          (replacements ++ [(placeholder, replacement)])
  else (output, replacements)
termination_by input.length - i
decreasing_by
  all_goals simp_wf
  · have := consumeInlineCode_pos hc; omega
  · omega
  · have := consumeInlineMath_pos hm; omega

theorem extractInlineMathAux_stop {input : List Char} {i c : Nat} {out : String}
    {repl : List (String × String)} (hlt : ¬i < input.length) :
    extractInlineMathAux input i c out repl = (out, repl) := by
  rw [extractInlineMathAux, dif_neg hlt]

theorem extractInlineMathAux_code {input : List Char} {i c : Nat} {out : String}
    {repl : List (String × String)} {text : List Char} {len : Nat}
    (hlt : i < input.length) (hc : consumeInlineCode input i = some (text, len)) :
    extractInlineMathAux input i c out repl =
      extractInlineMathAux input (i + len) c (out ++ text.asString) repl := by
  rw [extractInlineMathAux, dif_pos hlt]
  split
  · rename_i text' len' hc'
    rw [hc] at hc'
    injection hc' with h
    injection h with h1 h2
    subst h1; subst h2
    rfl
  · rename_i hc'
    rw [hc] at hc'
    exact absurd hc' (by simp)

theorem extractInlineMathAux_plain {input : List Char} {i c : Nat} {out : String}
    {repl : List (String × String)}
    (hlt : i < input.length) (hc : consumeInlineCode input i = none)
    (hm : consumeInlineMath input i c = none) :
    extractInlineMathAux input i c out repl =
      extractInlineMathAux input (i + 1) c (out ++ ((input.drop i).take 1).asString) repl := by
  rw [extractInlineMathAux, dif_pos hlt]
  split
  · rename_i text' len' hc'
    rw [hc] at hc'
    exact absurd hc' (by simp)
  · split
    · rfl
    · rename_i p r len n hm'
      rw [hm] at hm'
      exact absurd hm' (by simp)

theorem extractInlineMathAux_math {input : List Char} {i c : Nat} {out : String}
    {repl : List (String × String)} {p r : String} {len n : Nat}
    (hlt : i < input.length) (hc : consumeInlineCode input i = none)
    (hm : consumeInlineMath input i c = some (p, r, len, n)) :
    extractInlineMathAux input i c out repl =
      extractInlineMathAux input (i + len) n (out ++ p) (repl ++ [(p, r)]) := by
  rw [extractInlineMathAux, dif_pos hlt]
  split
  · rename_i text' len' hc'
    rw [hc] at hc'
    exact absurd hc' (by simp)
  · split
    · rename_i hm'
      rw [hm] at hm'
      exact absurd hm' (by simp)
    · rename_i p' r' len' n' hm'
      rw [hm] at hm'
      injection hm' with h
      injection h with h1 h
      injection h with h2 h
      injection h with h3 h4
      subst h1; subst h2; subst h3; subst h4
      rfl

/-- `extractInlineMathPlaceholders` from `syncUtil.ts`. The `Map` of
replacements is modelled as an insertion-ordered association list. -/
def extractInlineMathPlaceholders (markdown : String) : String × List (String × String) :=
  extractInlineMathAux markdown.data 0 0 "" []

/-- The `value.split(pattern).join(replacement)` idiom used throughout
`syncUtil.ts`: replace every (leftmost, non-overlapping) occurrence of
`pat`. The empty pattern never occurs in the source's uses. -/
def replaceAllAux (pat rep : List Char) : List Char → List Char
  | [] => []
  | c :: cs =>
    if (c :: cs).take pat.length = pat ∧ pat ≠ [] then
      rep ++ replaceAllAux pat rep ((c :: cs).drop pat.length)
    else c :: replaceAllAux pat rep cs
termination_by l => l.length
decreasing_by
  all_goals simp_wf
  all_goals first
    | omega
    | (rename_i h
       have : pat.length ≠ 0 := fun hz => h.2 (List.eq_nil_of_length_eq_zero hz)
       omega)

/-- String-level wrapper for `replaceAllAux`. -/
def replaceAll (value pat rep : String) : String :=
  (replaceAllAux pat.data rep.data value.data).asString

/-- `renderMarkdownText` from `syncUtil.ts`, with the external `remark`
pipeline (`String(MARKDOWN_PROCESSOR.processSync(x)).trim()`) abstracted as
the parameter `md`. Placeholder restoration is
`rendered.split(placeholder).join(replacement)`. -/
def renderMarkdownText (md : String → String) (lines : List String) : String :=
  let markdown := joinNL lines
  let res := extractInlineMathPlaceholders markdown
  res.2.foldl (fun rendered pr => replaceAll rendered pr.1 pr.2) (md res.1)

/-- `escapeHtml` from `syncUtil.ts`. -/
def escapeHtml (value : String) : String :=
  replaceAll (replaceAll (replaceAll value "&" "&amp;") "<" "&lt;") ">" "&gt;"

/-- `escapeHtmlAttribute` from `syncUtil.ts`. -/
def escapeHtmlAttribute (value : String) : String :=
  replaceAll (replaceAll (replaceAll (replaceAll value "&" "&amp;") "\"" "&quot;") "<" "&lt;") ">" "&gt;"

theorem consumeInlineMath_of_escaped {input : List Char} {idx counter : Nat}
    (h : isEscaped input idx = true) : consumeInlineMath input idx counter = none := by
  rw [consumeInlineMath, if_pos (Or.inr h)]

theorem findInlineMathEnd_not_escaped {input : List Char} {s : Nat} {d : Bool} {j : Nat}
    (h : findInlineMathEnd input s d = some j) : isEscaped input j = false := by
  induction s, d using findInlineMathEnd.induct input with
  | case1 s d hlt hc ih =>
    rw [findInlineMathEnd, dif_pos hlt, if_pos hc] at h
    exact ih h
  | case2 s d hlt hc hesc ih =>
    rw [findInlineMathEnd, dif_pos hlt, if_neg hc, if_pos hesc] at h
    exact ih h
  | case3 s hlt hc hesc hnext =>
    rw [findInlineMathEnd, dif_pos hlt, if_neg hc, if_neg hesc, if_pos rfl, if_pos hnext] at h
    simp at h
    subst h
    simpa using hesc
  | case4 s hlt hc hesc hnext ih =>
    rw [findInlineMathEnd, dif_pos hlt, if_neg hc, if_neg hesc, if_pos rfl, if_neg hnext] at h
    exact ih h
  | case5 s d hlt hc hesc hd hnext ih =>
    rw [findInlineMathEnd, dif_pos hlt, if_neg hc, if_neg hesc, if_neg hd, if_pos hnext] at h
    exact ih h
  | case6 s d hlt hc hesc hd hnext =>
    rw [findInlineMathEnd, dif_pos hlt, if_neg hc, if_neg hesc, if_neg hd, if_neg hnext] at h
    simp at h
    subst h
    simpa using hesc
  | case7 s d hlt =>
    rw [findInlineMathEnd, dif_neg hlt] at h
    exact absurd h (by simp)

/-- `renderSegment` from `syncUtil.ts`. -/
def renderSegment (md : String → String) : BodySegment → String
  | .text lines => renderMarkdownText md lines
  | .code language code =>
    let languageClass :=
      if language.length > 0 then
        " class=\"language-" ++ escapeHtmlAttribute language ++ "\""
      else ""
    "<pre><code" ++ languageClass ++ ">" ++ escapeHtml code ++ "</code></pre>"
  | .math latex => MATH_BLOCK_OPEN ++ latex ++ MATH_BLOCK_CLOSE

/-- `renderBodySegments` from `syncUtil.ts`. -/
def renderBodySegments (md : String → String) (segments : List BodySegment) : String :=
  joinNL (segments.map (renderSegment md))

/-- `formatBodyForAnki` from `syncUtil.ts`. -/
def formatBodyForAnki (md : String → String) (lines : List String) : String :=
  renderBodySegments md (parseBodyTokens (lexBody lines))

/-- **C5** — Fence balance: wherever the fence parser, scanning in text
mode with pending buffer `buf`, meets a code or math fence that has no
matching close token (same marker, empty info) anywhere later, it produces
no `Code`/`Math` segment from that fence — it appends the fence's raw line
to the text buffer and continues — the raw line ends up verbatim inside a
`Text` segment, and, for any prose renderer that preserves its input lines
as substrings, the formatter's final rendered output contains the fence
marker text unchanged. -/
theorem C5_fence_balance {md : String → String} {buf : List String}
    {ts : List BodyToken} {raw info : String} {m : FenceMarker}
    (hnoclose : findClosingFence m ts = none)
    (hpreserve : ∀ ls, BodySegment.text ls ∈ parseBodyTokensAux buf (.fence raw m info :: ts) →
        ∀ l ∈ ls, ∃ a b, renderMarkdownText md ls = a ++ l ++ b) :
    parseBodyTokensAux buf (.fence raw m info :: ts) = parseBodyTokensAux (buf ++ [raw]) ts ∧
    (∃ ls, BodySegment.text ls ∈ parseBodyTokensAux buf (.fence raw m info :: ts) ∧ raw ∈ ls) ∧
    (∃ a b, renderBodySegments md (parseBodyTokensAux buf (.fence raw m info :: ts)) =
        a ++ raw ++ b) := by
  have hstep := parseBodyTokensAux_cons_fence_none buf raw info hnoclose
  have hmem : ∃ ls, BodySegment.text ls ∈ parseBodyTokensAux (buf ++ [raw]) ts ∧ raw ∈ ls :=
    parseBodyTokensAux_buffer_mem (buf ++ [raw]) ts raw (List.mem_append_right buf (by simp))
  obtain ⟨ls, hseg, hraw⟩ := hmem
  rw [← hstep] at hseg
  refine ⟨hstep, ⟨ls, hseg, hraw⟩, ?_⟩
  obtain ⟨a, b, hab⟩ := hpreserve ls hseg raw hraw
  have hrs : renderSegment md (BodySegment.text ls) ∈
      (parseBodyTokensAux buf (.fence raw m info :: ts)).map (renderSegment md) :=
    List.mem_map_of_mem _ hseg
  obtain ⟨c, d, hcd⟩ := joinNL_mem_split hrs
  refine ⟨c ++ a, b ++ d, ?_⟩
  rw [renderBodySegments, hcd]
  have : renderSegment md (BodySegment.text ls) = renderMarkdownText md ls := rfl
  rw [this, hab]
  simp [String.append_assoc]

set_option maxRecDepth 4096 in
/-- Witness for `C5_fence_balance`: a concrete unclosed tilde fence
followed by a text line, with the prose renderer instantiated to `id`. -/
theorem C5_fence_balance_witness :
    parseBodyTokensAux [] [.fence "~~~js" .tilde "js", .text "tail"] =
      parseBodyTokensAux ([] ++ ["~~~js"]) [.text "tail"] ∧
    (∃ ls, BodySegment.text ls ∈
        parseBodyTokensAux [] [.fence "~~~js" .tilde "js", .text "tail"] ∧ "~~~js" ∈ ls) ∧
    (∃ a b, renderBodySegments id
        (parseBodyTokensAux [] [.fence "~~~js" .tilde "js", .text "tail"]) =
        a ++ "~~~js" ++ b) := by
  have hcomp : parseBodyTokensAux [] [.fence "~~~js" .tilde "js", .text "tail"] =
      [.text ["~~~js", "tail"]] := by
    rw [parseBodyTokensAux_cons_fence_none [] "~~~js" "js" (by decide),
      parseBodyTokensAux_cons_text, parseBodyTokensAux_nil]
    rfl
  refine C5_fence_balance (by decide) ?_
  intro ls hls l hl
  rw [hcomp] at hls
  simp only [List.mem_singleton, BodySegment.text.injEq] at hls
  subst hls
  have hrender : renderMarkdownText id ["~~~js", "tail"] = "~~~js\ntail" := by
    rw [renderMarkdownText]
    have hj : joinNL ["~~~js", "tail"] = "~~~js\ntail" := rfl
    rw [hj]
    have hx : extractInlineMathPlaceholders "~~~js\ntail" = ("~~~js\ntail", []) := by
      simp [extractInlineMathPlaceholders, extractInlineMathAux, consumeInlineCode,
        consumeInlineMath, isEscaped, countSameCharRun, findMatchingTickRun,
        findInlineMathEnd, backtickChar]
      decide
    rw [hx]
    rfl
  rw [hrender]
  rcases List.mem_cons.mp hl with hl1 | hl2
  · exact ⟨"", "\ntail", by rw [hl1]; decide⟩
  · have hl3 : l = "tail" := by simpa using hl2
    exact ⟨"~~~js\n", "", by rw [hl3]; decide⟩

/-- **C6 (counterexample)** — the claimed lossless reconstruction of the
original body lines from the segments alone is impossible: two different
bodies (differing in fence-line spacing) lex and parse to the *same*
segment list, and the natural reconstruction (canonical fence spelling)
differs from the first body. -/
theorem C6_segment_partition_counterexample :
    parseBodyTokens (lexBody ["``` js", "x", "```"]) =
      parseBodyTokens (lexBody ["```js", "x", "```"]) ∧
    (["``` js", "x", "```"] : List String) ≠ ["```js", "x", "```"] ∧
    reconstructedBody (parseBodyTokens (lexBody ["``` js", "x", "```"])) ≠
      joinNL ["``` js", "x", "```"] := by
  have h1 : lexBody ["``` js", "x", "```"] =
      [.fence "``` js" .backtick "js", .text "x", .fence "```" .backtick ""] := by decide
  have h2 : lexBody ["```js", "x", "```"] =
      [.fence "```js" .backtick "js", .text "x", .fence "```" .backtick ""] := by decide
  have hp1 : parseBodyTokens (lexBody ["``` js", "x", "```"]) = [.code "js" "x"] := by
    rw [h1, parseBodyTokens,
      parseBodyTokensAux_cons_fence_some [] "``` js" "js"
        (show findClosingFence .backtick [.text "x", .fence "```" .backtick ""] =
          some ([.text "x"], .fence "```" .backtick "", []) by decide),
      parseBodyTokensAux_nil]
    rfl
  have hp2 : parseBodyTokens (lexBody ["```js", "x", "```"]) = [.code "js" "x"] := by
    rw [h2, parseBodyTokens,
      parseBodyTokensAux_cons_fence_some [] "```js" "js"
        (show findClosingFence .backtick [.text "x", .fence "```" .backtick ""] =
          some ([.text "x"], .fence "```" .backtick "", []) by decide),
      parseBodyTokensAux_nil]
    rfl
  refine ⟨hp1.trans hp2.symm, by decide, ?_⟩
  rw [hp1]
  decide

/-- **C6 (amended)** — Segment partition round-trip, for canonically
fenced bodies: when every matched fence pair is spelled canonically
(` ```info ` with no surrounding whitespace, or exactly `$$`; tilde fences
unmatched only) and no matched region is exactly one empty line,
concatenating the unrendered lines reconstructable from the segments in
order equals the original body, joined by newlines — no line dropped or
duplicated. -/
theorem C6_segment_partition_amended (lines : List String)
    (h : goodTokens (lexBody lines) = true) :
    reconstructedBody (parseBodyTokens (lexBody lines)) = joinNL lines := by
  rw [parseBodyTokens, parseBodyTokensAux_reconstruct [] (lexBody lines) h,
    List.nil_append, lexBody_map_raw]

/-- Witness for `C6_segment_partition_amended`: a concrete body with a
canonical code fence, a canonical math fence, an unmatched fence kept as
text, and surrounding prose. -/
theorem C6_segment_partition_amended_witness :
    goodTokens (lexBody ["intro", "```hs", "f x", "```", "$$", "e", "$$", "~~~ loose"]) = true ∧
    reconstructedBody (parseBodyTokens
        (lexBody ["intro", "```hs", "f x", "```", "$$", "e", "$$", "~~~ loose"])) =
      joinNL ["intro", "```hs", "f x", "```", "$$", "e", "$$", "~~~ loose"] := by
  have hlex : lexBody ["intro", "```hs", "f x", "```", "$$", "e", "$$", "~~~ loose"] =
      [.text "intro", .fence "```hs" .backtick "hs", .text "f x", .fence "```" .backtick "",
        .fence "$$" .dollar "", .text "e", .fence "$$" .dollar "", .fence "~~~ loose" .tilde "loose"] := by
    decide
  have hg : goodTokens (lexBody ["intro", "```hs", "f x", "```", "$$", "e", "$$", "~~~ loose"]) = true := by
    rw [hlex, goodTokens_cons_text,
      goodTokens_cons_fence_some "```hs" "hs"
        (show findClosingFence .backtick
            [.text "f x", .fence "```" .backtick "", .fence "$$" .dollar "", .text "e",
              .fence "$$" .dollar "", .fence "~~~ loose" .tilde "loose"] =
          some ([.text "f x"], .fence "```" .backtick "",
            [.fence "$$" .dollar "", .text "e", .fence "$$" .dollar "",
              .fence "~~~ loose" .tilde "loose"]) by decide),
      goodTokens_cons_fence_some "$$" ""
        (show findClosingFence .dollar
            [.text "e", .fence "$$" .dollar "", .fence "~~~ loose" .tilde "loose"] =
          some ([.text "e"], .fence "$$" .dollar "", [.fence "~~~ loose" .tilde "loose"]) by decide),
      goodTokens_cons_fence_none "~~~ loose" "loose"
        (show findClosingFence .tilde ([] : List BodyToken) = none by decide),
      goodTokens_nil]
    decide
  exact ⟨hg, C6_segment_partition_amended _ hg⟩

/-- **C7** — Escaping parity for inline math. A dollar delimiter preceded
by an odd number of consecutive backslashes is treated as escaped and does
not open an inline math span (`consumeInlineMath` refuses it) nor close
one (`findInlineMathEnd` never stops on an escaped dollar). Concretely,
the input `\\$x\\$` passes the placeholder-extraction stage unchanged with
no substitution recorded, while the unescaped `$x$` is replaced by a
placeholder whose replacement is the inline-math wrapper `\\(x\\)`, which
the renderer (prose pipeline abstracted as `id`) restores in the output. -/
theorem C7_inline_math_escaping_parity :
    (∀ (input : List Char) (idx counter : Nat), isEscaped input idx = true →
        consumeInlineMath input idx counter = none) ∧
    (∀ (input : List Char) (s : Nat) (d : Bool) (j : Nat),
        findInlineMathEnd input s d = some j → isEscaped input j = false) ∧
    extractInlineMathPlaceholders "\\$x\\$" = ("\\$x\\$", []) ∧
    extractInlineMathPlaceholders "$x$" =
      ("ANKILINK_MATH_0_TOKEN", [("ANKILINK_MATH_0_TOKEN", "\\(x\\)")]) ∧
    renderMarkdownText id ["\\$x\\$"] = "\\$x\\$" ∧
    renderMarkdownText id ["$x$"] = "\\(x\\)" := by
  have hesc : extractInlineMathPlaceholders "\\$x\\$" = ("\\$x\\$", []) := by
    simp [extractInlineMathPlaceholders, extractInlineMathAux, consumeInlineCode, consumeInlineMath,
      isEscaped, countSameCharRun, findMatchingTickRun, findInlineMathEnd, backtickChar]
    decide
  have hcode : consumeInlineCode ['$', 'x', '$'] 0 = none := by
    simp [consumeInlineCode, isEscaped, backtickChar]
  have hmath : consumeInlineMath ['$', 'x', '$'] 0 0 =
      some ("ANKILINK_MATH_0_TOKEN", "\\(x\\)", 3, 1) := by
    simp [consumeInlineMath, isEscaped, findInlineMathEnd, MATH_INLINE_OPEN, MATH_INLINE_CLOSE]
    decide
  have hex : extractInlineMathPlaceholders "$x$" =
      ("ANKILINK_MATH_0_TOKEN", [("ANKILINK_MATH_0_TOKEN", "\\(x\\)")]) := by
    rw [extractInlineMathPlaceholders]
    have hdata : ("$x$" : String).data = ['$', 'x', '$'] := by decide
    rw [hdata, extractInlineMathAux_math (by norm_num) hcode hmath,
      extractInlineMathAux_stop (by norm_num)]
    decide
  refine ⟨fun input idx counter h => consumeInlineMath_of_escaped h,
    fun input s d j h => findInlineMathEnd_not_escaped h, hesc, hex, ?_, ?_⟩
  · rw [renderMarkdownText]
    rw [show joinNL ["\\$x\\$"] = "\\$x\\$" from rfl]
    rw [hesc]
    rfl
  · rw [renderMarkdownText]
    rw [show joinNL ["$x$"] = "$x$" from rfl]
    rw [hex]
    show replaceAll (id "ANKILINK_MATH_0_TOKEN") "ANKILINK_MATH_0_TOKEN" "\\(x\\)" = "\\(x\\)"
    simp [replaceAll, replaceAllAux]
    decide

/-- Witness for `C7_inline_math_escaping_parity`: its universally
quantified conjuncts applied at a concrete escaped input. -/
theorem C7_inline_math_escaping_parity_witness :
    consumeInlineMath ['\\', '$', 'x', '\\', '$'] 1 0 = none :=
  C7_inline_math_escaping_parity.1 ['\\', '$', 'x', '\\', '$'] 1 0 (by decide)

end BodyFormatter

section DocumentParser

/-- The optional `(?:%%(\d+)%%)?` group of `FC_PREAMBLE_P` from
`regexUtil.ts`: `%%`, one or more decimal digits, `%%`. Returns the digit
run and the remaining characters, or `none` when the group does not match
(in which case the regex skips it). -/
def tryIdAnnotation : List Char → Option (List Char × List Char)
  | '%' :: '%' :: rest =>
    if (rest.takeWhile Char.isDigit).isEmpty then none
    else
      match rest.drop (rest.takeWhile Char.isDigit).length with
      | '%' :: '%' :: rest2 => some (rest.takeWhile Char.isDigit, rest2)
      | _ => none
  | _ => none

/-- Decimal digit-run to number, as `Number(id)` does for an all-digit
string (modelled exactly over `Nat`). -/
def digitsToNat (ds : List Char) : Nat :=
  ds.foldl (fun acc c => acc * 10 + (c.toNat - 48)) 0

/-- `parsePreamble` from `syncUtil.ts`, i.e. matching
`FC_PREAMBLE_P = /^>\s*\[!flashcard\]\s*(?:%%(\d+)%%)?\s*(.*)$/` and
returning `(id?, title)`. The greedy `\s*`/`\d+` runs need no backtracking
here: after a digit run the next two characters either are `%%` or the
optional group cannot match at all. -/
def parsePreamble (str : String) : Option (Option Nat × String) :=
  match str.data with
  | '>' :: rest0 =>
    let rest1 := rest0.dropWhile isJsSpace
    if rest1.take 12 = "[!flashcard]".data then
      let rest2 := (rest1.drop 12).dropWhile isJsSpace
      match tryIdAnnotation rest2 with
      | some (digits, rest3) =>
        some (some (digitsToNat digits), (rest3.dropWhile isJsSpace).asString)
      | none => some (none, rest2.asString)
    else none
  | _ => none

/-- The body-line cleanup `line.replace(/^>\s?/, "")` in `parseBody`:
strip one leading `>` and at most one following whitespace character. -/
def stripQuote (line : String) : String :=
  match line.data with
  | '>' :: c :: rest => if isJsSpace c then String.mk rest else String.mk (c :: rest)
  | '>' :: [] => ""
  | other => String.mk other

/-- `parseBody` from `syncUtil.ts`: the contiguous prefix of quoted lines
that are not themselves flashcard preambles, each with the quote marker
stripped. -/
def parseBody : List String → List String
  | [] => []
  | line :: rest =>
    if (parsePreamble line).isSome then []
    else if line.data.take 1 = ">".data then stripQuote line :: parseBody rest
    else []

theorem parseBody_length_le (lines : List String) : (parseBody lines).length ≤ lines.length := by
  induction lines with
  | nil => simp [parseBody]
  | cons line rest ih =>
    rw [parseBody]
    split
    · simp
    · split
      · simpa using Nat.succ_le_succ ih
      · simp

/-- `ParsedNoteData` from `syncUtil.ts`. -/
structure ParsedNoteData where
  id : Option Nat
  index : Nat
  note : Note
deriving DecidableEq, Repr

/-- The scan loop of `parseDocument` from `syncUtil.ts`, with the index
`i` kept alongside the remaining line suffix: a non-header or title-less
line advances by one; a titled header consumes its body and advances past
it (`i += bodyLines.length + 1`). -/
def parseDocumentAux (md : String → String) (deckName : String) :
    Nat → List String → List ParsedNoteData
  | _, [] => []
  | i, line :: rest =>
    match parsePreamble line with
    | none => parseDocumentAux md deckName (i + 1) rest
    | some (id, title) =>
      if title = "" then parseDocumentAux md deckName (i + 1) rest
      else
        ⟨id, i, buildNote title (formatBodyForAnki md (parseBody rest)) deckName⟩ ::
          parseDocumentAux md deckName (i + (parseBody rest).length + 1)
            (rest.drop (parseBody rest).length)
termination_by _ lines => lines.length
decreasing_by
  all_goals simp_wf
  all_goals omega

/-- `parseDocument` from `syncUtil.ts`. -/
def parseDocument (md : String → String) (lines : List String) (deckName : String) :
    List ParsedNoteData :=
  parseDocumentAux md deckName 0 lines

theorem parseDocumentAux_nil (md : String → String) (deckName : String) (i : Nat) :
    parseDocumentAux md deckName i [] = [] := by
  rw [parseDocumentAux]

theorem parseDocumentAux_cons_none {line : String} (md : String → String) (deckName : String)
    (i : Nat) (rest : List String) (h : parsePreamble line = none) :
    parseDocumentAux md deckName i (line :: rest) = parseDocumentAux md deckName (i + 1) rest := by
  rw [parseDocumentAux]
  simp [h]

theorem parseDocumentAux_cons_empty {line : String} {id : Option Nat}
    (md : String → String) (deckName : String) (i : Nat) (rest : List String)
    (h : parsePreamble line = some (id, "")) :
    parseDocumentAux md deckName i (line :: rest) = parseDocumentAux md deckName (i + 1) rest := by
  rw [parseDocumentAux]
  simp [h]

theorem parseDocumentAux_cons_title {line title : String} {id : Option Nat}
    (md : String → String) (deckName : String) (i : Nat) (rest : List String)
    (h : parsePreamble line = some (id, title)) (ht : title ≠ "") :
    parseDocumentAux md deckName i (line :: rest) =
      ⟨id, i, buildNote title (formatBodyForAnki md (parseBody rest)) deckName⟩ ::
        parseDocumentAux md deckName (i + (parseBody rest).length + 1)
          (rest.drop (parseBody rest).length) := by
  rw [parseDocumentAux]
  simp [h, ht]

theorem parseDocumentAux_index_bounds (md : String → String) (deckName : String)
    (i : Nat) (lines : List String) :
    ∀ r ∈ parseDocumentAux md deckName i lines, i ≤ r.index ∧ r.index < i + lines.length := by
  induction i, lines using parseDocumentAux.induct md deckName with
  | case1 i => intro r hr; simp [parseDocumentAux_nil] at hr
  | case2 i line rest hpre ih =>
    intro r hr
    rw [parseDocumentAux_cons_none md deckName i rest hpre] at hr
    have := ih r hr
    simp only [List.length_cons]
    omega
  | case3 i line rest id hpre ih =>
    intro r hr
    rw [parseDocumentAux_cons_empty md deckName i rest hpre] at hr
    have := ih r hr
    simp only [List.length_cons]
    omega
  | case4 i line rest id title hpre htitle ih =>
    intro r hr
    rw [parseDocumentAux_cons_title md deckName i rest hpre htitle] at hr
    rcases List.mem_cons.mp hr with hr | hr
    · subst hr; simp
    · have hb := ih r hr
      have hl := parseBody_length_le rest
      simp only [List.length_drop] at hb
      simp only [List.length_cons]
      omega

theorem parseDocumentAux_chain (md : String → String) (deckName : String)
    (i : Nat) (lines : List String) :
    List.Chain' (fun a b => a.index < b.index) (parseDocumentAux md deckName i lines) := by
  induction i, lines using parseDocumentAux.induct md deckName with
  | case1 i => simp [parseDocumentAux_nil]
  | case2 i line rest hpre ih =>
    rw [parseDocumentAux_cons_none md deckName i rest hpre]
    exact ih
  | case3 i line rest id hpre ih =>
    rw [parseDocumentAux_cons_empty md deckName i rest hpre]
    exact ih
  | case4 i line rest id title hpre htitle ih =>
    rw [parseDocumentAux_cons_title md deckName i rest hpre htitle]
    refine List.chain'_cons'.mpr ⟨?_, ih⟩
    intro y hy
    have hmem := List.mem_of_mem_head? hy
    have hb := (parseDocumentAux_index_bounds md deckName _ _ y hmem).1
    simp only []
    omega

/-- **C9** — Parser termination and scan progress: `parseDocument` is a
total function (its scan loop is well-founded because each iteration
advances by one line on a non-header or title-less line and by the
extracted body length plus one after a titled header), and each produced
record's `lineIndex` is strictly greater than the previous record's and
stays within the document. -/
theorem C9_parseDocument_indices (md : String → String) (lines : List String)
    (deckName : String) :
    List.Chain' (fun a b => a.index < b.index) (parseDocument md lines deckName) ∧
    ∀ r ∈ parseDocument md lines deckName, r.index < lines.length := by
  constructor
  · exact parseDocumentAux_chain md deckName 0 lines
  · intro r hr
    have hb := (parseDocumentAux_index_bounds md deckName 0 lines r hr).2
    omega

end DocumentParser

section Reconciliation

/-- JavaScript `Set.prototype.add`: append if absent (insertion order). -/
def jsSetAdd (l : List Nat) (x : Nat) : List Nat :=
  if l.contains x then l else l ++ [x]

/-- `[...new Set(xs)]`: deduplicate keeping first occurrences. -/
def jsSetOfList (l : List Nat) : List Nat :=
  l.foldl jsSetAdd []

/-- JavaScript `Map.prototype.set`: replace the first binding of the key,
or append a new binding. -/
def setAssoc {β : Type} (m : List (String × β)) (k : String) (v : β) : List (String × β) :=
  match m with
  | [] => [(k, v)]
  | (k2, v2) :: rest => if k2 = k then (k, v) :: rest else (k2, v2) :: setAssoc rest k v

/-- `FileSyncContext` from `syncUtil.ts`; the `file`/`filePath` handle is
represented by the context's position in the context list. -/
structure FileSyncContext where
  deckName : String
  lines : List String
  notesData : List ParsedNoteData
  linesModified : Bool
deriving DecidableEq, Repr

/-- `GlobalReadState` from `syncUtil.ts`, with the two maps as association
lists in insertion order and the tagged-id `Set` as its iteration-order
list. -/
structure GlobalReadState where
  taggedNoteIdsAtStart : List Nat
  existingNotesById : List (Nat × NoteInfo)
  notesInDeckByName : List (String × List Nat)
deriving DecidableEq, Repr

/-- The two per-note mutation actions staged by the reconcile loop of
`syncVaultNotes` (`changeDeck` line 109, `updateNoteFields` line 117). -/
inductive MutAction where
  | changeDeck (cards : List Nat) (deck : String)
  | updateNoteFields (id : Nat) (fields : NoteFields)
deriving DecidableEq, Repr

/-- The `AnkiMultiAction`s collected in `mutationActions`
(`syncUtil.ts` lines 133-148). -/
inductive BatchAction where
  | addNotes (notes : List Note)
  | mut (a : MutAction)
  | addTags (notes : List Nat) (tags : String)
  | deleteNotes (notes : List Nat)
deriving DecidableEq, Repr

/-- `PendingNoteCreation` from `syncUtil.ts`; the originating context is
identified by its index in the context list. -/
structure PendingNoteCreation where
  ctxIdx : Nat
  noteData : ParsedNoteData
deriving DecidableEq, Repr

/-- The mutable accumulators of the reconcile loop in `syncVaultNotes`
(lines 82-86), plus the per-deck id sets, which the loop mutates through
the `notesInDeck` alias into `globalReadState.notesInDeckByName`. -/
structure ReconcileState where
  totalModified : Nat
  seenNoteIds : List Nat
  noteMutationActions : List MutAction
  noteIdsToTag : List Nat
  notesToCreate : List PendingNoteCreation
  notesInDeckByName : List (String × List Nat)
deriving DecidableEq, Repr

/-- The tagged-note path of the loop body (`syncUtil.ts` lines 107-125):
stage `changeDeck` when the note is not in the deck set and has cards,
stage `updateNoteFields` when the fields differ, and count the note as
modified when either was staged. The two tests are expanded into the four
explicit cases. -/
def reconcileTagged (deckName : String) (st : ReconcileState) (notesInDeck : List Nat)
    (noteData : ParsedNoteData) (ankiNote : NoteInfo) : ReconcileState × List Nat :=
  if !notesInDeck.contains ankiNote.noteId && !ankiNote.cards.isEmpty then
    if noteFieldsDiffer noteData.note.fields ankiNote.fields then
      ({ st with
          noteMutationActions := st.noteMutationActions ++
            [.changeDeck ankiNote.cards deckName, .updateNoteFields ankiNote.noteId noteData.note.fields],
          totalModified := st.totalModified + 1 },
        jsSetAdd notesInDeck ankiNote.noteId)
    else
      ({ st with
          noteMutationActions := st.noteMutationActions ++ [.changeDeck ankiNote.cards deckName],
          totalModified := st.totalModified + 1 },
        jsSetAdd notesInDeck ankiNote.noteId)
  else
    if noteFieldsDiffer noteData.note.fields ankiNote.fields then
      ({ st with
          noteMutationActions := st.noteMutationActions ++
            [.updateNoteFields ankiNote.noteId noteData.note.fields],
          totalModified := st.totalModified + 1 },
        notesInDeck)
    else (st, notesInDeck)

/-- One iteration of the inner loop of `syncVaultNotes` (lines 91-126):
no id or unresolved id stages a create; a resolved id is marked seen, an
untagged note goes to the adoption set only, and a tagged note proceeds to
the deck/fields comparison. -/
def reconcileStep (g : GlobalReadState) (ctxIdx : Nat) (deckName : String)
    (s : ReconcileState × List Nat) (noteData : ParsedNoteData) : ReconcileState × List Nat :=
  match noteData.id with
  | none => ({ s.1 with notesToCreate := s.1.notesToCreate ++ [⟨ctxIdx, noteData⟩] }, s.2)
  | some id =>
    match g.existingNotesById.lookup id with
    | none => ({ s.1 with notesToCreate := s.1.notesToCreate ++ [⟨ctxIdx, noteData⟩] }, s.2)
    | some ankiNote =>
      if noteHasTag ankiNote ANKI_LINK_TAG then
        reconcileTagged deckName
          { s.1 with seenNoteIds := jsSetAdd s.1.seenNoteIds ankiNote.noteId }
          s.2 noteData ankiNote
      else
        ({ s.1 with
            seenNoteIds := jsSetAdd s.1.seenNoteIds ankiNote.noteId,
            noteIdsToTag := jsSetAdd s.1.noteIdsToTag ankiNote.noteId },
          s.2)

/-- One iteration of the outer loop of `syncVaultNotes` (lines 87-127):
fetch the deck's id set (`?? new Set()` when absent), run the inner loop,
and — matching the alias semantics of the source, where `notesInDeck` *is*
the Map's own `Set` object when present — write the final set back only
when the deck has an entry. -/
def reconcileContext (g : GlobalReadState) (st : ReconcileState) (ctxIdx : Nat)
    (context : FileSyncContext) : ReconcileState :=
  match (st.notesInDeckByName.lookup context.deckName) with
  | some d0 =>
    match context.notesData.foldl (reconcileStep g ctxIdx context.deckName) (st, d0) with
    | (st2, inDeck) => { st2 with notesInDeckByName := setAssoc st2.notesInDeckByName context.deckName inDeck }
  | none =>
    (context.notesData.foldl (reconcileStep g ctxIdx context.deckName) (st, [])).1

/-- The initial loop state (`syncUtil.ts` lines 82-86). -/
def initialReconcileState (g : GlobalReadState) : ReconcileState :=
  { totalModified := 0, seenNoteIds := [], noteMutationActions := [], noteIdsToTag := [],
    notesToCreate := [], notesInDeckByName := g.notesInDeckByName }

/-- The whole reconcile loop of `syncVaultNotes` over all contexts. -/
def reconcileAll (g : GlobalReadState) (contexts : List FileSyncContext) : ReconcileState :=
  (contexts.enum).foldl (fun st p => reconcileContext g st p.1 p.2) (initialReconcileState g)

/-- `orphanedNoteIds` (`syncUtil.ts` line 129): tagged-at-start ids never
seen on this pass. -/
def orphanedNoteIds (g : GlobalReadState) (st : ReconcileState) : List Nat :=
  g.taggedNoteIdsAtStart.filter (fun noteId => !st.seenNoteIds.contains noteId)

/-- `mutationActions` (`syncUtil.ts` lines 133-148): `addNotes` first when
any create is pending, then the per-note mutations, then one `addTags`,
then one `deleteNotes`. -/
def buildMutationActions (st : ReconcileState) (orphans : List Nat) : List BatchAction :=
  (if st.notesToCreate.isEmpty then [] else
    [BatchAction.addNotes (st.notesToCreate.map (fun entry => entry.noteData.note))])
  ++ st.noteMutationActions.map BatchAction.mut
  ++ (if st.noteIdsToTag.isEmpty then [] else [BatchAction.addTags st.noteIdsToTag ANKI_LINK_TAG])
  ++ (if orphans.isEmpty then [] else [BatchAction.deleteNotes orphans])

/-- `SyncSummary` from `syncUtil.ts`. -/
structure SyncSummary where
  added : Nat
  modified : Nat
  deleted : Nat
deriving DecidableEq, Repr

/-- The summary returned by `syncVaultNotes` (line 169) on the success
path, where `addNotes` returned exactly one id per pending creation. -/
def syncSummaryOf (g : GlobalReadState) (contexts : List FileSyncContext) : SyncSummary :=
  { added := (reconcileAll g contexts).notesToCreate.length
    modified := (reconcileAll g contexts).totalModified
    deleted := (orphanedNoteIds g (reconcileAll g contexts)).length }

theorem mem_jsSetAdd {l : List Nat} {x y : Nat} : y ∈ jsSetAdd l x ↔ y ∈ l ∨ y = x := by
  unfold jsSetAdd
  split
  · rename_i h
    have hx : x ∈ l := by simpa using h
    constructor
    · exact Or.inl
    · rintro (hy | rfl)
      · exact hy
      · exact hx
  · simp

theorem reconcileTagged_seen (deckName : String) (st : ReconcileState) (k : List Nat)
    (nd : ParsedNoteData) (info : NoteInfo) :
    (reconcileTagged deckName st k nd info).1.seenNoteIds = st.seenNoteIds := by
  unfold reconcileTagged
  split <;> split <;> rfl

theorem reconcileTagged_tags (deckName : String) (st : ReconcileState) (k : List Nat)
    (nd : ParsedNoteData) (info : NoteInfo) :
    (reconcileTagged deckName st k nd info).1.noteIdsToTag = st.noteIdsToTag := by
  unfold reconcileTagged
  split <;> split <;> rfl

theorem reconcileTagged_creates (deckName : String) (st : ReconcileState) (k : List Nat)
    (nd : ParsedNoteData) (info : NoteInfo) :
    (reconcileTagged deckName st k nd info).1.notesToCreate = st.notesToCreate := by
  unfold reconcileTagged
  split <;> split <;> rfl

theorem reconcileTagged_map (deckName : String) (st : ReconcileState) (k : List Nat)
    (nd : ParsedNoteData) (info : NoteInfo) :
    (reconcileTagged deckName st k nd info).1.notesInDeckByName = st.notesInDeckByName := by
  unfold reconcileTagged
  split <;> split <;> rfl

theorem reconcileStep_map (g : GlobalReadState) (c : Nat) (d : String)
    (s : ReconcileState × List Nat) (nd : ParsedNoteData) :
    (reconcileStep g c d s nd).1.notesInDeckByName = s.1.notesInDeckByName := by
  unfold reconcileStep
  split
  · rfl
  · split
    · rfl
    · split
      · rw [reconcileTagged_map]
      · rfl

/-- The id this record "sees": the `noteId` of the fetched note its
identifier resolves to, when it resolves. -/
def resolvedId (g : GlobalReadState) (nd : ParsedNoteData) : Option Nat :=
  match nd.id with
  | none => none
  | some id => (g.existingNotesById.lookup id).map (fun info => info.noteId)

/-- All ids seen across all contexts, in record order (with multiplicity). -/
def resolvedIds (g : GlobalReadState) (contexts : List FileSyncContext) : List Nat :=
  (contexts.flatMap FileSyncContext.notesData).filterMap (resolvedId g)

theorem reconcileStep_seen_mem (g : GlobalReadState) (c : Nat) (d : String)
    (s : ReconcileState × List Nat) (nd : ParsedNoteData) (y : Nat) :
    y ∈ (reconcileStep g c d s nd).1.seenNoteIds ↔
      y ∈ s.1.seenNoteIds ∨ resolvedId g nd = some y := by
  unfold reconcileStep resolvedId
  split
  · simp
  · rename_i id heq
    cases hlook : g.existingNotesById.lookup id with
    | none => simp
    | some info =>
      simp only [Option.map_some, Option.some.injEq]
      split
      · rw [reconcileTagged_seen]
        simp [mem_jsSetAdd]
        constructor
        · rintro (h | h)
          · exact Or.inl h
          · exact Or.inr h.symm
        · rintro (h | h)
          · exact Or.inl h
          · exact Or.inr h.symm
      · simp [mem_jsSetAdd]
        constructor
        · rintro (h | h)
          · exact Or.inl h
          · exact Or.inr h.symm
        · rintro (h | h)
          · exact Or.inl h
          · exact Or.inr h.symm

theorem foldl_reconcileStep_seen_mem (g : GlobalReadState) (c : Nat) (d : String)
    (nds : List ParsedNoteData) (s : ReconcileState × List Nat) (y : Nat) :
    y ∈ (nds.foldl (reconcileStep g c d) s).1.seenNoteIds ↔
      y ∈ s.1.seenNoteIds ∨ some y ∈ nds.map (resolvedId g) := by
  induction nds generalizing s with
  | nil => simp
  | cons nd nds ih =>
    rw [List.foldl_cons, ih, reconcileStep_seen_mem]
    simp only [List.map_cons, List.mem_cons]
    constructor
    · rintro ((h | h) | h)
      · exact Or.inl h
      · exact Or.inr (Or.inl h.symm)
      · exact Or.inr (Or.inr h)
    · rintro (h | (h | h))
      · exact Or.inl (Or.inl h)
      · exact Or.inl (Or.inr h.symm)
      · exact Or.inr h

theorem reconcileContext_seen_mem (g : GlobalReadState) (st : ReconcileState)
    (ctxIdx : Nat) (context : FileSyncContext) (y : Nat) :
    y ∈ (reconcileContext g st ctxIdx context).seenNoteIds ↔
      y ∈ st.seenNoteIds ∨ some y ∈ context.notesData.map (resolvedId g) := by
  unfold reconcileContext
  cases hl : st.notesInDeckByName.lookup context.deckName with
  | some d0 =>
    simpa using foldl_reconcileStep_seen_mem g ctxIdx context.deckName context.notesData (st, d0) y
  | none =>
    simpa using foldl_reconcileStep_seen_mem g ctxIdx context.deckName context.notesData (st, []) y

theorem foldl_reconcileContext_seen_mem (g : GlobalReadState)
    (ps : List (Nat × FileSyncContext)) (st : ReconcileState) (y : Nat) :
    y ∈ (ps.foldl (fun st p => reconcileContext g st p.1 p.2) st).seenNoteIds ↔
      y ∈ st.seenNoteIds ∨
        some y ∈ (ps.flatMap (fun p => p.2.notesData)).map (resolvedId g) := by
  induction ps generalizing st with
  | nil => simp
  | cons p ps ih =>
    rw [List.foldl_cons, ih, reconcileContext_seen_mem]
    simp only [List.flatMap_cons, List.map_append, List.mem_append]
    constructor
    · rintro ((h | h) | h)
      · exact Or.inl h
      · exact Or.inr (Or.inl h)
      · exact Or.inr (Or.inr h)
    · rintro (h | (h | h))
      · exact Or.inl (Or.inl h)
      · exact Or.inl (Or.inr h)
      · exact Or.inr h

theorem reconcileAll_seen_mem (g : GlobalReadState) (contexts : List FileSyncContext) (y : Nat) :
    y ∈ (reconcileAll g contexts).seenNoteIds ↔ y ∈ resolvedIds g contexts := by
  unfold reconcileAll resolvedIds
  rw [foldl_reconcileContext_seen_mem]
  have henum : contexts.enum.flatMap (fun p => p.2.notesData) =
      contexts.flatMap FileSyncContext.notesData := by
    rw [show contexts.enum.flatMap (fun p => p.2.notesData) =
        (contexts.enum.map Prod.snd).flatMap FileSyncContext.notesData by
      rw [List.flatMap_map]]
    rw [List.enum_map_snd]
  rw [henum]
  simp [initialReconcileState, List.mem_filterMap, List.mem_map, eq_comm]

theorem contains_eq_of_mem_iff {l1 l2 : List Nat} {x : Nat} (h : x ∈ l1 ↔ x ∈ l2) :
    l1.contains x = l2.contains x := by
  by_cases hx : x ∈ l1
  · simp [hx, h.mp hx]
  · have hx2 : x ∉ l2 := fun hc => hx (h.mpr hc)
    simp [hx, hx2]

theorem orphanedNoteIds_formula (g : GlobalReadState) (contexts : List FileSyncContext) :
    orphanedNoteIds g (reconcileAll g contexts) =
      g.taggedNoteIdsAtStart.filter (fun id => !(resolvedIds g contexts).contains id) := by
  unfold orphanedNoteIds
  apply List.filter_congr
  intro x _
  rw [contains_eq_of_mem_iff (reconcileAll_seen_mem g contexts x)]

theorem filter_length_flip_one {l : List Nat} {i : Nat} {p q : Nat → Bool}
    (hnd : l.Nodup) (hi : i ∈ l) (hpi : p i = false) (hqi : q i = true)
    (hagree : ∀ x ∈ l, x ≠ i → p x = q x) :
    (l.filter q).length = (l.filter p).length + 1 ∧ i ∈ l.filter q ∧ i ∉ l.filter p := by
  induction l with
  | nil => simp at hi
  | cons a t ih =>
    rcases List.mem_cons.mp hi with rfl | hit
    · have hnoti : i ∉ t := (List.nodup_cons.mp hnd).1
      have hft : t.filter p = t.filter q := by
        apply List.filter_congr
        intro x hx
        exact hagree x (List.mem_cons_of_mem _ hx) (fun hxi => hnoti (hxi ▸ hx))
      rw [List.filter_cons, List.filter_cons, hpi, hqi]
      simp only [if_true, if_false]
      refine ⟨by simp [hft], List.mem_cons_self _ _, ?_⟩
      intro hmem
      exact hnoti (by simpa [hft] using (List.mem_filter.mp hmem).1)
    · have hai : a ≠ i := by
        rintro rfl
        exact (List.nodup_cons.mp hnd).1 hit
      have ih2 := ih (List.nodup_cons.mp hnd).2 hit
        (fun x hx hxi => hagree x (List.mem_cons_of_mem _ hx) hxi)
      rw [List.filter_cons, List.filter_cons, hagree a (List.mem_cons_self _ _) hai]
      by_cases hqa : q a = true
      · rw [hqa]
        simp only [if_true]
        refine ⟨by simp [ih2.1], List.mem_cons_of_mem _ ih2.2.1, ?_⟩
        intro hmem
        rcases List.mem_cons.mp hmem with h | h
        · exact hai h.symm
        · exact ih2.2.2 h
      · have hqa2 : q a = false := by simpa using hqa
        rw [hqa2]
        simp only [Bool.false_eq_true, if_false]
        exact ⟨ih2.1, ih2.2.1, ih2.2.2⟩

theorem resolvedIds_removal {g : GlobalReadState} {A B : List FileSyncContext}
    {ctx : FileSyncContext} {u v : List ParsedNoteData} {nd : ParsedNoteData} {i : Nat}
    (hnd : ctx.notesData = u ++ nd :: v) (hres : resolvedId g nd = some i) :
    ∀ x, x ∈ resolvedIds g (A ++ ctx :: B) ↔
      x ∈ resolvedIds g (A ++ { ctx with notesData := u ++ v } :: B) ∨ x = i := by
  intro x
  unfold resolvedIds
  simp only [List.flatMap_append, List.flatMap_cons, hnd, List.filterMap_append,
    List.mem_append, List.filterMap_cons]
  rw [hres]
  simp only [List.mem_cons]
  tauto

/-- **C2** — Orphan deletion: the staged delete set is exactly the
tagged-at-start identifiers minus the identifiers seen (i.e. matched to an
existing fetched record) during the pass; consequently, removing one
record whose identifier `i` resolved (while no remaining record resolves
to `i`) makes `i` appear in the next run's delete set and increases the
`deleted` count by exactly one. -/
theorem C2_orphan_deletion {g : GlobalReadState} {contexts contexts2 A B : List FileSyncContext}
    {ctx : FileSyncContext} {u v : List ParsedNoteData} {nd : ParsedNoteData} {i : Nat}
    (hc : contexts = A ++ ctx :: B)
    (hnd : ctx.notesData = u ++ nd :: v)
    (hc2 : contexts2 = A ++ { ctx with notesData := u ++ v } :: B)
    (hres : resolvedId g nd = some i)
    (hnot : i ∉ resolvedIds g contexts2)
    (htag : i ∈ g.taggedNoteIdsAtStart)
    (hnodup : g.taggedNoteIdsAtStart.Nodup) :
    (∀ ctxs : List FileSyncContext, orphanedNoteIds g (reconcileAll g ctxs) =
      g.taggedNoteIdsAtStart.filter (fun id => !(resolvedIds g ctxs).contains id)) ∧
    i ∈ orphanedNoteIds g (reconcileAll g contexts2) ∧
    i ∉ orphanedNoteIds g (reconcileAll g contexts) ∧
    (orphanedNoteIds g (reconcileAll g contexts2)).length =
      (orphanedNoteIds g (reconcileAll g contexts)).length + 1 ∧
    (syncSummaryOf g contexts2).deleted = (syncSummaryOf g contexts).deleted + 1 := by
  subst hc; subst hc2
  have hiff := @resolvedIds_removal g A B ctx u v nd i hnd hres
  have hmem : i ∈ resolvedIds g (A ++ ctx :: B) := (hiff i).mpr (Or.inr rfl)
  have hp : (fun id => !(resolvedIds g (A ++ ctx :: B)).contains id) i = false := by
    simp [hmem]
  have hq : (fun id => !(resolvedIds g (A ++ { ctx with notesData := u ++ v } :: B)).contains id) i
      = true := by
    simp [hnot]
  have hagree : ∀ x ∈ g.taggedNoteIdsAtStart, x ≠ i →
      (fun id => !(resolvedIds g (A ++ ctx :: B)).contains id) x =
      (fun id => !(resolvedIds g (A ++ { ctx with notesData := u ++ v } :: B)).contains id) x := by
    intro x _ hxi
    simp only []
    congr 1
    apply contains_eq_of_mem_iff
    rw [hiff x]
    constructor
    · rintro (h | rfl)
      · exact h
      · exact absurd rfl hxi
    · exact Or.inl
  have hcount := filter_length_flip_one hnodup htag hp hq hagree
  rw [orphanedNoteIds_formula g (A ++ ctx :: B),
    orphanedNoteIds_formula g (A ++ { ctx with notesData := u ++ v } :: B)]
  refine ⟨orphanedNoteIds_formula g, hcount.2.1, hcount.2.2, hcount.1, ?_⟩
  unfold syncSummaryOf
  simp only []
  rw [orphanedNoteIds_formula g (A ++ ctx :: B),
    orphanedNoteIds_formula g (A ++ { ctx with notesData := u ++ v } :: B)]
  exact hcount.1

/-- A small concrete read state and context pair used by witnesses: one
managed remote note with id 7 referenced by one parsed record. -/
def sampleNoteInfo : NoteInfo :=
  ⟨7, [ANKI_LINK_TAG], [70], ⟨⟨"f"⟩, ⟨"b"⟩⟩⟩

/-- Read state holding `sampleNoteInfo` as the only tagged note. -/
def sampleReadState : GlobalReadState :=
  ⟨[7], [(7, sampleNoteInfo)], [("d", [7])]⟩

/-- A parsed record referencing note 7 with matching fields. -/
def sampleRecord : ParsedNoteData :=
  ⟨some 7, 0, buildNote "f" "b" "d"⟩

/-- A context containing `sampleRecord`. -/
def sampleContext : FileSyncContext :=
  ⟨"d", [], [sampleRecord], false⟩

/-- Witness for `C2_orphan_deletion`: removing the one record that
references note 7 puts 7 into the delete set and bumps `deleted` by 1. -/
theorem C2_orphan_deletion_witness :
    7 ∈ orphanedNoteIds sampleReadState
        (reconcileAll sampleReadState [{ sampleContext with notesData := [] ++ [] }]) ∧
    7 ∉ orphanedNoteIds sampleReadState (reconcileAll sampleReadState [sampleContext]) ∧
    (orphanedNoteIds sampleReadState
        (reconcileAll sampleReadState [{ sampleContext with notesData := [] ++ [] }])).length =
      (orphanedNoteIds sampleReadState (reconcileAll sampleReadState [sampleContext])).length + 1 ∧
    (syncSummaryOf sampleReadState [{ sampleContext with notesData := [] ++ [] }]).deleted =
      (syncSummaryOf sampleReadState [sampleContext]).deleted + 1 := by
  have h := @C2_orphan_deletion sampleReadState [sampleContext]
    [{ sampleContext with notesData := ([] : List ParsedNoteData) ++ [] }] [] []
    sampleContext [] [] sampleRecord 7 rfl rfl rfl
    (by decide) (by decide) (by decide) (by decide)
  exact ⟨h.2.1, h.2.2.1, h.2.2.2.1, h.2.2.2.2⟩

theorem mem_of_lookup {l : List (Nat × NoteInfo)} {k : Nat} {v : NoteInfo}
    (h : l.lookup k = some v) : (k, v) ∈ l := by
  induction l with
  | nil => simp [List.lookup] at h
  | cons p t ih =>
    match p with
    | (a, b) =>
      rw [List.lookup] at h
      split at h
      · rename_i hk
        simp only [Option.some.injEq] at h
        subst h
        have : k = a := by simpa using hk
        subst this
        exact List.mem_cons_self _ _
      · exact List.mem_cons_of_mem _ (ih h)

/-- A staged per-note mutation action is accounted for by some fetched,
managed-tagged note: `updateNoteFields` carries that note's id,
`changeDeck` that note's card list. -/
def actionFromTagged (g : GlobalReadState) (a : MutAction) : Prop :=
  ∃ info, (∃ nid, g.existingNotesById.lookup nid = some info) ∧
    noteHasTag info ANKI_LINK_TAG = true ∧
    (match a with
     | .updateNoteFields id _ => id = info.noteId
     | .changeDeck cards _ => cards = info.cards)

theorem reconcileStep_id_none {nd : ParsedNoteData} (g : GlobalReadState) (c : Nat) (d : String)
    (s : ReconcileState × List Nat) (h : nd.id = none) :
    reconcileStep g c d s nd =
      ({ s.1 with notesToCreate := s.1.notesToCreate ++ [⟨c, nd⟩] }, s.2) := by
  unfold reconcileStep
  rw [h]

theorem reconcileStep_lookup_none {nd : ParsedNoteData} {id : Nat} (g : GlobalReadState)
    (c : Nat) (d : String) (s : ReconcileState × List Nat) (h : nd.id = some id)
    (hl : g.existingNotesById.lookup id = none) :
    reconcileStep g c d s nd =
      ({ s.1 with notesToCreate := s.1.notesToCreate ++ [⟨c, nd⟩] }, s.2) := by
  unfold reconcileStep
  rw [h]
  simp [hl]

theorem reconcileStep_untagged {nd : ParsedNoteData} {id : Nat} {info : NoteInfo}
    (g : GlobalReadState) (c : Nat) (d : String) (s : ReconcileState × List Nat)
    (h : nd.id = some id) (hl : g.existingNotesById.lookup id = some info)
    (ht : noteHasTag info ANKI_LINK_TAG = false) :
    reconcileStep g c d s nd =
      ({ s.1 with
          seenNoteIds := jsSetAdd s.1.seenNoteIds info.noteId,
          noteIdsToTag := jsSetAdd s.1.noteIdsToTag info.noteId }, s.2) := by
  unfold reconcileStep
  rw [h]
  simp [hl, ht]

theorem reconcileStep_tagged {nd : ParsedNoteData} {id : Nat} {info : NoteInfo}
    (g : GlobalReadState) (c : Nat) (d : String) (s : ReconcileState × List Nat)
    (h : nd.id = some id) (hl : g.existingNotesById.lookup id = some info)
    (ht : noteHasTag info ANKI_LINK_TAG = true) :
    reconcileStep g c d s nd =
      reconcileTagged d { s.1 with seenNoteIds := jsSetAdd s.1.seenNoteIds info.noteId }
        s.2 nd info := by
  unfold reconcileStep
  rw [h]
  simp [hl, ht]

theorem reconcileTagged_actions_decomp (d : String) (st : ReconcileState) (k : List Nat)
    (nd : ParsedNoteData) (info : NoteInfo) :
    ∃ new, (reconcileTagged d st k nd info).1.noteMutationActions =
        st.noteMutationActions ++ new ∧
      ∀ a ∈ new, a = MutAction.changeDeck info.cards d ∨
        a = MutAction.updateNoteFields info.noteId nd.note.fields := by
  unfold reconcileTagged
  split
  · split
    · refine ⟨[MutAction.changeDeck info.cards d,
        MutAction.updateNoteFields info.noteId nd.note.fields], rfl, ?_⟩
      intro a ha
      rcases List.mem_cons.mp ha with rfl | ha
      · exact Or.inl rfl
      · exact Or.inr (List.mem_singleton.mp ha)
    · refine ⟨[MutAction.changeDeck info.cards d], rfl, ?_⟩
      intro a ha
      exact Or.inl (List.mem_singleton.mp ha)
  · split
    · refine ⟨[MutAction.updateNoteFields info.noteId nd.note.fields], rfl, ?_⟩
      intro a ha
      exact Or.inr (List.mem_singleton.mp ha)
    · exact ⟨[], by simp, by simp⟩

theorem reconcileStep_actions_prov (g : GlobalReadState) (c : Nat) (d : String)
    (s : ReconcileState × List Nat) (nd : ParsedNoteData)
    (hs : ∀ a ∈ s.1.noteMutationActions, actionFromTagged g a) :
    ∀ a ∈ (reconcileStep g c d s nd).1.noteMutationActions, actionFromTagged g a := by
  cases hid : nd.id with
  | none =>
    rw [reconcileStep_id_none g c d s hid]
    exact hs
  | some id =>
    cases hlook : g.existingNotesById.lookup id with
    | none =>
      rw [reconcileStep_lookup_none g c d s hid hlook]
      exact hs
    | some info =>
      cases htag : noteHasTag info ANKI_LINK_TAG with
      | false =>
        rw [reconcileStep_untagged g c d s hid hlook htag]
        exact hs
      | true =>
        rw [reconcileStep_tagged g c d s hid hlook htag]
        obtain ⟨new, hdecomp, hnew⟩ := reconcileTagged_actions_decomp d
          { s.1 with seenNoteIds := jsSetAdd s.1.seenNoteIds info.noteId } s.2 nd info
        rw [hdecomp]
        intro a ha
        rcases List.mem_append.mp ha with ha | ha
        · exact hs a ha
        · rcases hnew a ha with rfl | rfl
          · exact ⟨info, ⟨id, hlook⟩, htag, rfl⟩
          · exact ⟨info, ⟨id, hlook⟩, htag, rfl⟩

theorem foldl_step_actions_prov (g : GlobalReadState) (c : Nat) (d : String)
    (nds : List ParsedNoteData) (s : ReconcileState × List Nat)
    (hs : ∀ a ∈ s.1.noteMutationActions, actionFromTagged g a) :
    ∀ a ∈ (nds.foldl (reconcileStep g c d) s).1.noteMutationActions, actionFromTagged g a := by
  induction nds generalizing s with
  | nil => exact hs
  | cons nd nds ih =>
    rw [List.foldl_cons]
    exact ih _ (reconcileStep_actions_prov g c d s nd hs)

theorem reconcileContext_actions_prov (g : GlobalReadState) (st : ReconcileState)
    (ctxIdx : Nat) (context : FileSyncContext)
    (hs : ∀ a ∈ st.noteMutationActions, actionFromTagged g a) :
    ∀ a ∈ (reconcileContext g st ctxIdx context).noteMutationActions, actionFromTagged g a := by
  unfold reconcileContext
  cases hl : st.notesInDeckByName.lookup context.deckName with
  | some d0 =>
    simpa using foldl_step_actions_prov g ctxIdx context.deckName context.notesData (st, d0) hs
  | none =>
    simpa using foldl_step_actions_prov g ctxIdx context.deckName context.notesData (st, []) hs

theorem reconcileAll_actions_prov (g : GlobalReadState) (contexts : List FileSyncContext) :
    ∀ a ∈ (reconcileAll g contexts).noteMutationActions, actionFromTagged g a := by
  unfold reconcileAll
  have hgen : ∀ (ps : List (Nat × FileSyncContext)) (st : ReconcileState),
      (∀ a ∈ st.noteMutationActions, actionFromTagged g a) →
      ∀ a ∈ (ps.foldl (fun st p => reconcileContext g st p.1 p.2) st).noteMutationActions,
        actionFromTagged g a := by
    intro ps
    induction ps with
    | nil => intro st hs; exact hs
    | cons p ps ih =>
      intro st hs
      rw [List.foldl_cons]
      exact ih _ (reconcileContext_actions_prov g st p.1 p.2 hs)
  exact hgen contexts.enum (initialReconcileState g) (by simp [initialReconcileState])

theorem reconcileStep_tags_mono (g : GlobalReadState) (c : Nat) (d : String)
    (s : ReconcileState × List Nat) (nd : ParsedNoteData) {x : Nat}
    (hx : x ∈ s.1.noteIdsToTag) : x ∈ (reconcileStep g c d s nd).1.noteIdsToTag := by
  cases hid : nd.id with
  | none =>
    rw [reconcileStep_id_none g c d s hid]
    exact hx
  | some id =>
    cases hlook : g.existingNotesById.lookup id with
    | none =>
      rw [reconcileStep_lookup_none g c d s hid hlook]
      exact hx
    | some info =>
      cases htag : noteHasTag info ANKI_LINK_TAG with
      | false =>
        rw [reconcileStep_untagged g c d s hid hlook htag]
        exact mem_jsSetAdd.mpr (Or.inl hx)
      | true =>
        rw [reconcileStep_tagged g c d s hid hlook htag, reconcileTagged_tags]
        exact hx

theorem foldl_step_tags_mono (g : GlobalReadState) (c : Nat) (d : String)
    (nds : List ParsedNoteData) (s : ReconcileState × List Nat) {x : Nat}
    (hx : x ∈ s.1.noteIdsToTag) : x ∈ (nds.foldl (reconcileStep g c d) s).1.noteIdsToTag := by
  induction nds generalizing s with
  | nil => exact hx
  | cons nd nds ih =>
    rw [List.foldl_cons]
    exact ih _ (reconcileStep_tags_mono g c d s nd hx)

theorem foldl_step_tags_mem (g : GlobalReadState) (c : Nat) (d : String)
    {nds : List ParsedNoteData} {nd : ParsedNoteData} {i : Nat} {info : NoteInfo}
    (hmem : nd ∈ nds) (hid : nd.id = some i)
    (hlook : g.existingNotesById.lookup i = some info)
    (htag : noteHasTag info ANKI_LINK_TAG = false) (s : ReconcileState × List Nat) :
    info.noteId ∈ (nds.foldl (reconcileStep g c d) s).1.noteIdsToTag := by
  induction nds generalizing s with
  | nil => simp at hmem
  | cons hd tl ih =>
    rw [List.foldl_cons]
    rcases List.mem_cons.mp hmem with rfl | htl
    · apply foldl_step_tags_mono
      rw [reconcileStep_untagged g c d s hid hlook htag]
      exact mem_jsSetAdd.mpr (Or.inr rfl)
    · exact ih htl _

theorem reconcileContext_tags_eq (g : GlobalReadState) (st : ReconcileState)
    (ctxIdx : Nat) (context : FileSyncContext) :
    (reconcileContext g st ctxIdx context).noteIdsToTag =
      ((context.notesData.foldl (reconcileStep g ctxIdx context.deckName)
        (st, (st.notesInDeckByName.lookup context.deckName).getD [])).1).noteIdsToTag := by
  unfold reconcileContext
  cases hl : st.notesInDeckByName.lookup context.deckName with
  | some d0 => simp
  | none => simp

theorem reconcileContext_tags_mono (g : GlobalReadState) (st : ReconcileState)
    (ctxIdx : Nat) (context : FileSyncContext) {x : Nat} (hx : x ∈ st.noteIdsToTag) :
    x ∈ (reconcileContext g st ctxIdx context).noteIdsToTag := by
  rw [reconcileContext_tags_eq]
  exact foldl_step_tags_mono g ctxIdx context.deckName context.notesData _ hx

theorem reconcileAll_tags_mem (g : GlobalReadState) {contexts : List FileSyncContext}
    {ctx : FileSyncContext} {nd : ParsedNoteData} {i : Nat} {info : NoteInfo}
    (hctx : ctx ∈ contexts) (hnd : nd ∈ ctx.notesData) (hid : nd.id = some i)
    (hlook : g.existingNotesById.lookup i = some info)
    (htag : noteHasTag info ANKI_LINK_TAG = false) :
    info.noteId ∈ (reconcileAll g contexts).noteIdsToTag := by
  unfold reconcileAll
  have hgen : ∀ (ps : List (Nat × FileSyncContext)) (st : ReconcileState),
      (∃ p ∈ ps, p.2 = ctx) →
      info.noteId ∈ (ps.foldl (fun st p => reconcileContext g st p.1 p.2) st).noteIdsToTag := by
    intro ps
    induction ps with
    | nil => rintro st ⟨p, hp, _⟩; simp at hp
    | cons p ps ih =>
      rintro st ⟨q, hq, hqc⟩
      rw [List.foldl_cons]
      rcases List.mem_cons.mp hq with rfl | hq2
      · have hq3 : info.noteId ∈ (reconcileContext g st q.1 q.2).noteIdsToTag := by
          rw [hqc, reconcileContext_tags_eq]
          exact foldl_step_tags_mem g q.1 ctx.deckName hnd hid hlook htag _
        have hmono : ∀ (qs : List (Nat × FileSyncContext)) (st2 : ReconcileState),
            info.noteId ∈ st2.noteIdsToTag →
            info.noteId ∈ (qs.foldl (fun st p => reconcileContext g st p.1 p.2) st2).noteIdsToTag := by
          intro qs
          induction qs with
          | nil => intro st2 h2; exact h2
          | cons r rs ihr =>
            intro st2 h2
            rw [List.foldl_cons]
            exact ihr _ (reconcileContext_tags_mono g st2 r.1 r.2 h2)
        exact hmono ps _ hq3
      · exact ih _ ⟨q, hq2, hqc⟩
  apply hgen
  obtain ⟨idx, hidx⟩ := List.mem_iff_get.mp hctx
  refine ⟨(idx, ctx), ?_, rfl⟩
  rw [List.mem_enum_iff_get?]
  simp [List.get?_eq_getElem?, ← hidx]

/-- **C4** — Adopt, don't overwrite: a parsed record whose identifier
resolves to a valid fetched remote note lacking the managed tag is
processed by staging only an `addTag` (the id joins `noteIdsToTag`, the
seen set is updated, and nothing else — no `updateNoteFields`, no
`changeDeck`, no create, no `modified` increment); over the whole run no
`updateNoteFields` for that note's id and no `changeDeck` for its cards is
staged (assuming fetched notes carry their own key as `noteId` and no
tagged note shares this note's card list). -/
theorem C4_adopt_dont_overwrite {g : GlobalReadState} {contexts : List FileSyncContext}
    {ctx : FileSyncContext} {nd : ParsedNoteData} {i : Nat} {info : NoteInfo}
    (hwf : ∀ p ∈ g.existingNotesById, (p.2 : NoteInfo).noteId = p.1)
    (hcards : ∀ p ∈ g.existingNotesById,
      noteHasTag (p.2 : NoteInfo) ANKI_LINK_TAG = true → (p.2 : NoteInfo).cards ≠ info.cards)
    (hctx : ctx ∈ contexts) (hnd : nd ∈ ctx.notesData)
    (hid : nd.id = some i)
    (hlook : g.existingNotesById.lookup i = some info)
    (htag : noteHasTag info ANKI_LINK_TAG = false) :
    (∀ (ctxIdx : Nat) (deckName : String) (st : ReconcileState) (inDeck : List Nat),
        reconcileStep g ctxIdx deckName (st, inDeck) nd =
          ({ st with
              seenNoteIds := jsSetAdd st.seenNoteIds info.noteId,
              noteIdsToTag := jsSetAdd st.noteIdsToTag info.noteId }, inDeck)) ∧
    info.noteId ∈ (reconcileAll g contexts).noteIdsToTag ∧
    (∀ f, MutAction.updateNoteFields info.noteId f ∉ (reconcileAll g contexts).noteMutationActions) ∧
    (∀ cards deck, MutAction.changeDeck cards deck ∈ (reconcileAll g contexts).noteMutationActions →
        cards ≠ info.cards) := by
  have hii : info.noteId = i := hwf (i, info) (mem_of_lookup hlook)
  refine ⟨?_, reconcileAll_tags_mem g hctx hnd hid hlook htag, ?_, ?_⟩
  · intro ctxIdx deckName st inDeck
    exact reconcileStep_untagged g ctxIdx deckName (st, inDeck) hid hlook htag
  · intro f hmemf
    obtain ⟨info2, ⟨nid, hlook2⟩, htag2, hshape⟩ := reconcileAll_actions_prov g contexts _ hmemf
    simp only [] at hshape
    have h2 : info2.noteId = nid := hwf (nid, info2) (mem_of_lookup hlook2)
    have : nid = i := by omega
    subst this
    rw [hlook] at hlook2
    injection hlook2 with h3
    subst h3
    rw [htag] at htag2
    exact Bool.false_ne_true htag2
  · intro cards deck hmemc
    obtain ⟨info2, ⟨nid, hlook2⟩, htag2, hshape⟩ := reconcileAll_actions_prov g contexts _ hmemc
    simp only [] at hshape
    subst hshape
    exact hcards (nid, info2) (mem_of_lookup hlook2) htag2

/-- An untagged remote note for the adoption witness. -/
def adoptNoteInfo : NoteInfo :=
  ⟨7, [], [70], ⟨⟨"f"⟩, ⟨"b"⟩⟩⟩

/-- Read state containing only the untagged `adoptNoteInfo`. -/
def adoptReadState : GlobalReadState :=
  ⟨[], [(7, adoptNoteInfo)], [("d", [])]⟩

/-- A parsed record referencing the untagged note 7. -/
def adoptRecord : ParsedNoteData :=
  ⟨some 7, 0, buildNote "f" "b2" "d"⟩

/-- A context containing `adoptRecord`. -/
def adoptContext : FileSyncContext :=
  ⟨"d", [], [adoptRecord], false⟩

/-- Witness for `C4_adopt_dont_overwrite` at the concrete adoption state. -/
theorem C4_adopt_dont_overwrite_witness :
    reconcileStep adoptReadState 0 "d" (initialReconcileState adoptReadState, []) adoptRecord =
      ({ initialReconcileState adoptReadState with
          seenNoteIds := jsSetAdd (initialReconcileState adoptReadState).seenNoteIds 7,
          noteIdsToTag := jsSetAdd (initialReconcileState adoptReadState).noteIdsToTag 7 }, []) ∧
    7 ∈ (reconcileAll adoptReadState [adoptContext]).noteIdsToTag ∧
    MutAction.updateNoteFields 7 ⟨"f", "b2"⟩ ∉
      (reconcileAll adoptReadState [adoptContext]).noteMutationActions ∧
    MutAction.changeDeck [70] "d" ∉
      (reconcileAll adoptReadState [adoptContext]).noteMutationActions := by
  have h := @C4_adopt_dont_overwrite adoptReadState [adoptContext] adoptContext adoptRecord 7
    adoptNoteInfo (by decide) (by decide) (by decide) (by decide) rfl (by decide) (by decide)
  exact ⟨h.1 0 "d" (initialReconcileState adoptReadState) [], h.2.1, h.2.2.1 ⟨"f", "b2"⟩,
    fun hmem => absurd rfl (h.2.2.2 [70] "d" hmem)⟩

/-- The header line written back by `applyCreatedNoteIds`
(`syncUtil.ts` line 328): the assigned identifier is spliced immediately
after the callout marker, followed by the record's `Front` (its title). -/
def spliceHeaderLine (noteId : Nat) (front : String) : String :=
  "> [!flashcard] %%" ++ toString noteId ++ "%% " ++ front

/-- One splice of `applyCreatedNoteIds`: replace the header line of the
pending record inside its originating context and mark the buffer
modified. -/
def applyPending (contexts : List FileSyncContext) (p : PendingNoteCreation)
    (noteId : Nat) : List FileSyncContext :=
  match contexts.get? p.ctxIdx with
  | none => contexts
  | some ctx =>
    contexts.set p.ctxIdx
      { ctx with
          lines := ctx.lines.set p.noteData.index
            (spliceHeaderLine noteId p.noteData.note.fields.Front),
          linesModified := true }

/-- `applyCreatedNoteIds` from `syncUtil.ts`: count mismatch is a hard
error; otherwise each pending creation's header line is rewritten with its
positionally-matched created id. -/
def applyCreatedNoteIds (contexts : List FileSyncContext)
    (notesToCreate : List PendingNoteCreation) (createdNoteIds : List Nat) :
    Except String (List FileSyncContext) :=
  if notesToCreate.length ≠ createdNoteIds.length then
    .error "AnkiConnect addNotes returned an unexpected number of note IDs"
  else
    .ok ((notesToCreate.zip createdNoteIds).foldl
      (fun cs pr => applyPending cs pr.1 pr.2) contexts)

/-- The write-back loop of `syncVaultNotes` (lines 163-166): exactly the
contexts whose line buffer was modified are written, one write each. -/
def writebackTargets (contexts : List FileSyncContext) : List FileSyncContext :=
  contexts.filter (fun context => context.linesModified)

theorem applyPending_length (contexts : List FileSyncContext) (p : PendingNoteCreation)
    (noteId : Nat) : (applyPending contexts p noteId).length = contexts.length := by
  unfold applyPending
  split
  · rfl
  · simp

theorem foldl_applyPending_char (S : List (PendingNoteCreation × Nat)) :
    ∀ (cs : List FileSyncContext) (k : Nat) (ctx : FileSyncContext),
      cs.get? k = some ctx →
      S.Pairwise (fun a b => ¬(a.1.ctxIdx = b.1.ctxIdx ∧ a.1.noteData.index = b.1.noteData.index)) →
      ∃ ctx2, (S.foldl (fun cs pr => applyPending cs pr.1 pr.2) cs).get? k = some ctx2 ∧
        ctx2.deckName = ctx.deckName ∧
        ctx2.notesData = ctx.notesData ∧
        ctx2.lines.length = ctx.lines.length ∧
        (ctx.linesModified = true → ctx2.linesModified = true) ∧
        ((∀ pr ∈ S, pr.1.ctxIdx ≠ k) → ctx2 = ctx) ∧
        ((∃ pr ∈ S, pr.1.ctxIdx = k) → ctx2.linesModified = true) ∧
        (∀ j, (∀ pr ∈ S, pr.1.ctxIdx = k → pr.1.noteData.index ≠ j) →
          ctx2.lines.get? j = ctx.lines.get? j) ∧
        (∀ pr ∈ S, pr.1.ctxIdx = k → pr.1.noteData.index < ctx.lines.length →
          ctx2.lines.get? pr.1.noteData.index =
            some (spliceHeaderLine pr.2 pr.1.noteData.note.fields.Front)) := by
  induction S with
  | nil =>
    intro cs k ctx hget _
    exact ⟨ctx, hget, rfl, rfl, rfl, fun h => h, fun _ => rfl, by simp, fun j _ => rfl, by simp⟩
  | cons hd T ih =>
    intro cs k ctx hget hdist
    obtain ⟨p, id⟩ := hd
    rw [List.foldl_cons]
    have hdT := (List.pairwise_cons.mp hdist).2
    have hdhd := (List.pairwise_cons.mp hdist).1
    by_cases hk : p.ctxIdx = k
    · subst hk
      have hcs2 : (applyPending cs p id).get? p.ctxIdx = some
          { ctx with
              lines := ctx.lines.set p.noteData.index
                (spliceHeaderLine id p.noteData.note.fields.Front),
              linesModified := true } := by
        unfold applyPending
        rw [hget]
        rw [List.get?_eq_getElem?] at hget ⊢
        rw [List.getElem?_set_self]
        exact (List.getElem?_eq_some_iff.mp hget).1
      obtain ⟨ctx2, hget2, hdeck, hnotes, hlen, hmodmono, huntouch, hmod, hline, hsplice⟩ :=
        ih (applyPending cs p id) p.ctxIdx _ hcs2 hdT
      refine ⟨ctx2, hget2, hdeck, hnotes, by simpa using hlen, fun _ => hmodmono rfl, ?_,
        fun _ => hmodmono rfl, ?_, ?_⟩
      · intro hnone
        exact absurd rfl (hnone (p, id) (List.mem_cons_self _ _))
      · intro j hj
        have hjp : p.noteData.index ≠ j := hj (p, id) (List.mem_cons_self _ _) rfl
        rw [hline j (fun pr hpr hprk => hj pr (List.mem_cons_of_mem _ hpr) hprk)]
        simp only []
        rw [List.get?_eq_getElem?, List.get?_eq_getElem?, List.getElem?_set_ne hjp]
      · intro pr hpr hprk hbound
        rcases List.mem_cons.mp hpr with rfl | hprT
        · have hT : ∀ qr ∈ T, qr.1.ctxIdx = p.ctxIdx → qr.1.noteData.index ≠ p.noteData.index := by
            intro qr hqr hqk
            have := hdhd qr hqr
            intro hcontra
            exact this ⟨hqk.symm, hcontra.symm⟩
          rw [hline p.noteData.index hT]
          simp only []
          rw [List.get?_eq_getElem?,
            List.getElem?_set_eq_of_lt _ (show p.noteData.index < ctx.lines.length from hbound)]
        · apply hsplice pr hprT hprk
          simpa using hbound
    · have hcs2 : (applyPending cs p id).get? k = some ctx := by
        unfold applyPending
        split
        · exact hget
        · rw [List.get?_eq_getElem?] at hget ⊢
          rw [List.getElem?_set_ne hk]
          exact hget
      obtain ⟨ctx2, hget2, hdeck, hnotes, hlen, hmodmono, huntouch, hmod, hline, hsplice⟩ :=
        ih (applyPending cs p id) k ctx hcs2 hdT
      refine ⟨ctx2, hget2, hdeck, hnotes, hlen, hmodmono, ?_, ?_, ?_, ?_⟩
      · intro hnone
        exact huntouch (fun pr hpr => hnone pr (List.mem_cons_of_mem _ hpr))
      · rintro ⟨pr, hpr, hprk⟩
        rcases List.mem_cons.mp hpr with rfl | hprT
        · exact absurd hprk hk
        · exact hmod ⟨pr, hprT, hprk⟩
      · intro j hj
        exact hline j (fun pr hpr hprk => hj pr (List.mem_cons_of_mem _ hpr) hprk)
      · intro pr hpr hprk hbound
        rcases List.mem_cons.mp hpr with rfl | hprT
        · exact absurd hprk hk
        · exact hsplice pr hprT hprk hbound

theorem foldl_applyPending_length (S : List (PendingNoteCreation × Nat))
    (cs : List FileSyncContext) :
    (S.foldl (fun cs pr => applyPending cs pr.1 pr.2) cs).length = cs.length := by
  induction S generalizing cs with
  | nil => rfl
  | cons hd T ih =>
    rw [List.foldl_cons, ih, applyPending_length]

theorem pairwise_zip_left {α β : Type} {P : α → α → Prop} {l : List α} (m : List β)
    (h : l.Pairwise P) : (l.zip m).Pairwise (fun a b => P a.1 b.1) := by
  induction l generalizing m with
  | nil => simp
  | cons a l ih =>
    cases m with
    | nil => simp
    | cons b m =>
      rw [List.zip_cons_cons]
      refine List.pairwise_cons.mpr ⟨?_, ih m (List.pairwise_cons.mp h).2⟩
      intro q hq
      exact (List.pairwise_cons.mp h).1 q.1 (List.of_mem_zip hq).1

/-- **C8** — Rewriter frame effect: on the success path of
`applyCreatedNoteIds` (counts matched), each document holding at least one
created record has each such record's header line replaced by
`> [!flashcard] %%id%% <title>` and its buffer marked modified (hence
written back, once, by the write loop); every other line of every document
is unchanged, and a document with no created records is returned untouched
with `linesModified` still false, so it is never written back. -/
theorem C8_rewriter_frame_effect {contexts contexts2 : List FileSyncContext}
    {pendings : List PendingNoteCreation} {ids : List Nat}
    (happly : applyCreatedNoteIds contexts pendings ids = .ok contexts2)
    (hinit : ∀ c ∈ contexts, c.linesModified = false)
    (hdist : pendings.Pairwise
      (fun a b => ¬(a.ctxIdx = b.ctxIdx ∧ a.noteData.index = b.noteData.index)))
    (hidx : ∀ p ∈ pendings, ∃ ctx, contexts.get? p.ctxIdx = some ctx ∧
      p.noteData.index < ctx.lines.length) :
    (∀ k ctx, contexts.get? k = some ctx → (∀ p ∈ pendings, p.ctxIdx ≠ k) →
        contexts2.get? k = some ctx) ∧
    (∀ pr ∈ pendings.zip ids, ∃ ctx2, contexts2.get? pr.1.ctxIdx = some ctx2 ∧
        ctx2.linesModified = true ∧
        ctx2.lines.get? pr.1.noteData.index =
          some (spliceHeaderLine pr.2 pr.1.noteData.note.fields.Front)) ∧
    (∀ k ctx ctx2 j, contexts.get? k = some ctx → contexts2.get? k = some ctx2 →
        (∀ p ∈ pendings, p.ctxIdx = k → p.noteData.index ≠ j) →
        ctx2.lines.get? j = ctx.lines.get? j) ∧
    (∀ k ctx2, contexts2.get? k = some ctx2 → ctx2.linesModified = true →
        ∃ p ∈ pendings, p.ctxIdx = k) ∧
    (∀ ctx2 ∈ writebackTargets contexts2, ∃ p ∈ pendings, ∃ k,
        contexts2.get? k = some ctx2 ∧ p.ctxIdx = k) := by
  unfold applyCreatedNoteIds at happly
  split at happly
  · exact absurd happly (by simp)
  · simp only [Except.ok.injEq] at happly
    have hzdist := pairwise_zip_left ids hdist
    have hchar := fun k ctx hk => foldl_applyPending_char (pendings.zip ids) contexts k ctx hk hzdist
    simp only [happly] at hchar
    have hlen2 : contexts2.length = contexts.length := by
      rw [← happly, foldl_applyPending_length]
    have hconj4 : ∀ k ctx2, contexts2.get? k = some ctx2 → ctx2.linesModified = true →
        ∃ p ∈ pendings, p.ctxIdx = k := by
      intro k ctx2 hget2 hmod2
      have hklt : k < contexts.length := by
        rw [← hlen2]
        rw [List.get?_eq_getElem?] at hget2
        exact (List.getElem?_eq_some_iff.mp hget2).1
      have hget : contexts.get? k = some (contexts.get ⟨k, hklt⟩) := List.get?_eq_get hklt
      obtain ⟨ctx2b, hget2b, _, _, _, _, huntouch, _, _, _⟩ := hchar k _ hget
      rw [hget2b] at hget2
      injection hget2 with h2
      subst h2
      by_contra hnot
      push_neg at hnot
      have heq := huntouch (fun pr hpr => hnot pr.1 (List.of_mem_zip hpr).1)
      rw [heq] at hmod2
      rw [hinit _ (List.get?_mem hget)] at hmod2
      exact absurd hmod2 (by simp)
    refine ⟨?_, ?_, ?_, hconj4, ?_⟩
    · intro k ctx hget hnone
      obtain ⟨c2, hg2, _, _, _, _, huntouch, _, _, _⟩ := hchar k ctx hget
      rw [hg2, huntouch (fun pr hpr => hnone pr.1 (List.of_mem_zip hpr).1)]
    · intro pr hpr
      obtain ⟨ctx, hget, hbound⟩ := hidx pr.1 (List.of_mem_zip hpr).1
      obtain ⟨c2, hg2, _, _, _, _, _, hmod, _, hsplice⟩ := hchar pr.1.ctxIdx ctx hget
      exact ⟨c2, hg2, hmod ⟨pr, hpr, rfl⟩, hsplice pr hpr rfl hbound⟩
    · intro k ctx ctx2 j hget hget2 hj
      obtain ⟨c2, hg2, _, _, _, _, _, _, hline, _⟩ := hchar k ctx hget
      rw [hg2] at hget2
      injection hget2 with h2
      subst h2
      exact hline j (fun pr hpr hprk => hj pr.1 (List.of_mem_zip hpr).1 hprk)
    · intro ctx2 hctx2
      have hmem := List.mem_filter.mp hctx2
      obtain ⟨k, hk⟩ := List.mem_iff_get.mp hmem.1
      have hget2 : contexts2.get? k = some ctx2 := by
        rw [List.get?_eq_get k.isLt, hk]
      obtain ⟨p, hp, hpk⟩ := hconj4 k ctx2 hget2 (by simpa using hmem.2)
      exact ⟨p, hp, k, hget2, hpk⟩

/-- A record awaiting creation, for the rewriter witness. -/
def rewriteRecord : ParsedNoteData :=
  ⟨none, 0, buildNote "What" "B" "d"⟩

/-- A context whose first line is the record's header line. -/
def rewriteContext : FileSyncContext :=
  ⟨"d", ["> [!flashcard] What", "> body", "x"], [rewriteRecord], false⟩

/-- `rewriteContext` after the created id 5 is spliced in. -/
def rewrittenContext : FileSyncContext :=
  ⟨"d", ["> [!flashcard] %%5%% What", "> body", "x"], [rewriteRecord], true⟩

/-- Witness for `C8_rewriter_frame_effect`: one document, one created
record, id 5 spliced into the header; the other lines survive unchanged
inside `rewrittenContext`. -/
theorem C8_rewriter_frame_effect_witness :
    applyCreatedNoteIds [rewriteContext] [⟨0, rewriteRecord⟩] [5] = .ok [rewrittenContext] ∧
    (∃ ctx2, ([rewrittenContext] : List FileSyncContext).get? 0 = some ctx2 ∧
      ctx2.linesModified = true ∧
      ctx2.lines.get? 0 = some (spliceHeaderLine 5 "What")) := by
  have happ : applyCreatedNoteIds [rewriteContext] [⟨0, rewriteRecord⟩] [5] =
      .ok [rewrittenContext] := by rfl
  have h := @C8_rewriter_frame_effect [rewriteContext] [rewrittenContext]
    [⟨0, rewriteRecord⟩] [5] happ (by decide) (by simp)
    (by
      intro p hp
      rcases List.mem_singleton.mp hp with rfl
      exact ⟨rewriteContext, by decide, by decide⟩)
  have h2 := h.2.1 (⟨0, rewriteRecord⟩, 5) (by decide)
  exact ⟨happ, by simpa using h2⟩

theorem parseDocumentAux_tags (md : String → String) (deckName : String)
    (i : Nat) (lines : List String) :
    ∀ r ∈ parseDocumentAux md deckName i lines, r.note.tags = [ANKI_LINK_TAG] := by
  induction i, lines using parseDocumentAux.induct md deckName with
  | case1 i => intro r hr; simp [parseDocumentAux_nil] at hr
  | case2 i line rest hpre ih =>
    intro r hr
    rw [parseDocumentAux_cons_none md deckName i rest hpre] at hr
    exact ih r hr
  | case3 i line rest id hpre ih =>
    intro r hr
    rw [parseDocumentAux_cons_empty md deckName i rest hpre] at hr
    exact ih r hr
  | case4 i line rest id title hpre htitle ih =>
    intro r hr
    rw [parseDocumentAux_cons_title md deckName i rest hpre htitle] at hr
    rcases List.mem_cons.mp hr with rfl | hr
    · rfl
    · exact ih r hr

theorem reconcileStep_creates_prov (g : GlobalReadState) (c : Nat) (d : String)
    (s : ReconcileState × List Nat) (nd : ParsedNoteData) :
    ∀ p ∈ (reconcileStep g c d s nd).1.notesToCreate,
      p ∈ s.1.notesToCreate ∨ p = ⟨c, nd⟩ := by
  intro p hp
  cases hid : nd.id with
  | none =>
    rw [reconcileStep_id_none g c d s hid] at hp
    rcases List.mem_append.mp hp with h | h
    · exact Or.inl h
    · exact Or.inr (List.mem_singleton.mp h)
  | some id =>
    cases hlook : g.existingNotesById.lookup id with
    | none =>
      rw [reconcileStep_lookup_none g c d s hid hlook] at hp
      rcases List.mem_append.mp hp with h | h
      · exact Or.inl h
      · exact Or.inr (List.mem_singleton.mp h)
    | some info =>
      cases htag : noteHasTag info ANKI_LINK_TAG with
      | false =>
        rw [reconcileStep_untagged g c d s hid hlook htag] at hp
        exact Or.inl hp
      | true =>
        rw [reconcileStep_tagged g c d s hid hlook htag] at hp
        rw [reconcileTagged_creates] at hp
        exact Or.inl hp

theorem foldl_step_creates_prov (g : GlobalReadState) (c : Nat) (d : String)
    (nds : List ParsedNoteData) (s : ReconcileState × List Nat) :
    ∀ p ∈ (nds.foldl (reconcileStep g c d) s).1.notesToCreate,
      p ∈ s.1.notesToCreate ∨ (p.ctxIdx = c ∧ p.noteData ∈ nds) := by
  induction nds generalizing s with
  | nil => intro p hp; exact Or.inl hp
  | cons nd nds ih =>
    intro p hp
    rw [List.foldl_cons] at hp
    rcases ih _ p hp with h | ⟨hc, hmem⟩
    · rcases reconcileStep_creates_prov g c d s nd p h with h | rfl
      · exact Or.inl h
      · exact Or.inr ⟨rfl, List.mem_cons_self _ _⟩
    · exact Or.inr ⟨hc, List.mem_cons_of_mem _ hmem⟩

theorem reconcileContext_creates_prov (g : GlobalReadState) (st : ReconcileState)
    (ctxIdx : Nat) (context : FileSyncContext) :
    ∀ p ∈ (reconcileContext g st ctxIdx context).notesToCreate,
      p ∈ st.notesToCreate ∨ (p.ctxIdx = ctxIdx ∧ p.noteData ∈ context.notesData) := by
  unfold reconcileContext
  cases hl : st.notesInDeckByName.lookup context.deckName with
  | some d0 =>
    simpa using foldl_step_creates_prov g ctxIdx context.deckName context.notesData (st, d0)
  | none =>
    simpa using foldl_step_creates_prov g ctxIdx context.deckName context.notesData (st, [])

theorem reconcileAll_creates_prov (g : GlobalReadState) (contexts : List FileSyncContext) :
    ∀ p ∈ (reconcileAll g contexts).notesToCreate,
      ∃ ctx ∈ contexts, p.noteData ∈ ctx.notesData := by
  unfold reconcileAll
  have hgen : ∀ (ps : List (Nat × FileSyncContext)) (st : ReconcileState),
      ∀ p ∈ (ps.foldl (fun st p => reconcileContext g st p.1 p.2) st).notesToCreate,
        p ∈ st.notesToCreate ∨ ∃ q ∈ ps, p.noteData ∈ q.2.notesData := by
    intro ps
    induction ps with
    | nil => intro st p hp; exact Or.inl hp
    | cons q ps ih =>
      intro st p hp
      rw [List.foldl_cons] at hp
      rcases ih _ p hp with h | ⟨r, hr, hmem⟩
      · rcases reconcileContext_creates_prov g st q.1 q.2 p h with h | ⟨hc, hmem⟩
        · exact Or.inl h
        · exact Or.inr ⟨q, List.mem_cons_self _ _, hmem⟩
      · exact Or.inr ⟨r, List.mem_cons_of_mem _ hr, hmem⟩
  intro p hp
  rcases hgen contexts.enum (initialReconcileState g) p hp with h | ⟨q, hq, hmem⟩
  · simp [initialReconcileState] at h
  · refine ⟨q.2, ?_, hmem⟩
    have hq2 : q.2 ∈ contexts.enum.map Prod.snd := List.mem_map_of_mem Prod.snd hq
    simpa [List.enum_map_snd] using hq2

/-- **C10** — Creates carry the managed tag: whenever every context holds
records produced by `parseDocument`, every note staged for creation in the
reconcile pass already has tags exactly `["ankiLink"]` at submission time,
the `addNotes` batch action contains only such notes, and any fetched view
of such a note passes the `noteHasTag` managed-tag test — so a note created
in one run is returned by the next run's tagged-managed-notes query and
never passes through the `addTag` adoption path. -/
theorem C10_creates_carry_tag (md : String → String) (g : GlobalReadState)
    (contexts : List FileSyncContext)
    (hctx : ∀ ctx ∈ contexts, ∃ lines, ctx.notesData = parseDocument md lines ctx.deckName) :
    (∀ p ∈ (reconcileAll g contexts).notesToCreate,
      p.noteData.note.tags = [ANKI_LINK_TAG]) ∧
    (∀ notes, BatchAction.addNotes notes ∈
        buildMutationActions (reconcileAll g contexts)
          (orphanedNoteIds g (reconcileAll g contexts)) →
      ∀ n ∈ notes, n.tags = [ANKI_LINK_TAG]) ∧
    (∀ p ∈ (reconcileAll g contexts).notesToCreate, ∀ info : NoteInfo,
      info.tags = p.noteData.note.tags → noteHasTag info ANKI_LINK_TAG = true) := by
  have htags : ∀ p ∈ (reconcileAll g contexts).notesToCreate,
      p.noteData.note.tags = [ANKI_LINK_TAG] := by
    intro p hp
    obtain ⟨ctx, hc, hmem⟩ := reconcileAll_creates_prov g contexts p hp
    obtain ⟨lines, hlines⟩ := hctx ctx hc
    rw [hlines] at hmem
    exact parseDocumentAux_tags md ctx.deckName 0 lines p.noteData hmem
  refine ⟨htags, ?_, ?_⟩
  · intro notes hmem n hn
    unfold buildMutationActions at hmem
    rcases List.mem_append.mp hmem with hmem | hmem
    · rcases List.mem_append.mp hmem with hmem | hmem
      · rcases List.mem_append.mp hmem with hmem | hmem
        · split at hmem
          · simp at hmem
          · have heq : notes = (reconcileAll g contexts).notesToCreate.map
                (fun entry => entry.noteData.note) := by
              have := List.mem_singleton.mp hmem
              exact (BatchAction.addNotes.injEq _ _).mp this.symm |>.symm
            rw [heq] at hn
            obtain ⟨e, he, hne⟩ := List.mem_map.mp hn
            rw [← hne]
            exact htags e he
        · simp at hmem
      · split at hmem
        · simp at hmem
        · simp at hmem
    · split at hmem
      · simp at hmem
      · simp at hmem
  · intro p hp info hinfo
    simp [noteHasTag, hinfo, htags p hp]

/-- An empty remote read state for the creates-carry-tag witness. -/
def c10ReadState : GlobalReadState :=
  ⟨[], [], []⟩

/-- A two-line flashcard document for the creates-carry-tag witness. -/
def c10Lines : List String :=
  ["> [!flashcard] Q", "> A"]

/-- A context whose records come from `parseDocument`, as in `syncVaultNotes`. -/
def c10Context : FileSyncContext :=
  ⟨"d", c10Lines, parseDocument (fun s => s) c10Lines "d", false⟩

/-- Witness for `C10_creates_carry_tag`: a context built by `parseDocument`
discharges the provenance hypothesis, and every staged creation carries the
managed tag. -/
theorem C10_creates_carry_tag_witness :
    (∀ ctx ∈ [c10Context], ∃ lines,
      ctx.notesData = parseDocument (fun s => s) lines ctx.deckName) ∧
    ∀ p ∈ (reconcileAll c10ReadState [c10Context]).notesToCreate,
      p.noteData.note.tags = [ANKI_LINK_TAG] := by
  have hctx : ∀ ctx ∈ [c10Context], ∃ lines,
      ctx.notesData = parseDocument (fun s => s) lines ctx.deckName := by
    intro ctx hc
    rcases List.mem_singleton.mp hc with rfl
    exact ⟨c10Lines, rfl⟩
  exact ⟨hctx,
    (C10_creates_carry_tag (fun s => s) c10ReadState [c10Context] hctx).1⟩

end Reconciliation

section AnkiRead

/-- An untyped JSON value as received from AnkiConnect (`unknown` in the
TypeScript). Numbers are note identifiers, modelled as naturals. -/
inductive RawValue where
  | null
  | bool (b : Bool)
  | num (n : Nat)
  | str (s : String)
  | arr (items : List RawValue)
  | obj (fields : List (String × RawValue))

/-- Object field access `o.k`, with an absent field read as `null`
(`undefined` and `null` behave identically in every later check). -/
def objGet (fields : List (String × RawValue)) (k : String) : RawValue :=
  (fields.lookup k).getD RawValue.null

/-- `isAnkiActionResponse` from `syncUtil.ts`: a non-null non-array object
whose `error` field is `null` or a string. -/
def isAnkiActionResponse (v : RawValue) : Bool :=
  match v with
  | .obj fields =>
    match objGet fields "error" with
    | .null => true
    | .str _ => true
    | _ => false
  | _ => false

/-- `unwrapMultiActionResult` from `syncUtil.ts`: a non-response item passes
through unchanged; a response with a truthy (non-empty string) `error`
throws; otherwise the `result` field is returned. -/
def unwrapMultiActionResult (item : RawValue) : Except String RawValue :=
  match item with
  | .obj fields =>
    match objGet fields "error" with
    | .null => .ok (objGet fields "result")
    | .str e =>
      if e = "" then .ok (objGet fields "result")
      else .error ("AnkiConnect multi action failed: " ++ e)
    | _ => .ok item
  | _ => .ok item

/-- `isNumberArray` from `syncUtil.ts`. -/
def isNumberArray (v : RawValue) : Bool :=
  match v with
  | .arr items => items.all (fun it => match it with | .num _ => true | _ => false)
  | _ => false

/-- The number-array cast that follows a successful `isNumberArray` check:
`some` exactly when the check passes. -/
def asNumberList (v : RawValue) : Option (List Nat) :=
  match v with
  | .arr items =>
    items.foldr (fun it acc => match it, acc with
      | .num n, some l => some (n :: l)
      | _, _ => none) (some [])
  | _ => none

/-- `isValidNoteInfo` from `syncUtil.ts` (lines 290-303): the entry is an
object whose `noteId` is a number and whose `fields.Front.value` and
`fields.Back.value` are strings; `tags` and `cards` are NOT checked. -/
def isValidNoteInfo (v : RawValue) : Bool :=
  match v with
  | .obj o =>
    (match objGet o "noteId" with | .num _ => true | _ => false) &&
    (match objGet o "fields" with
     | .obj f =>
       (match objGet f "Front" with
        | .obj fr => (match objGet fr "value" with | .str _ => true | _ => false)
        | _ => false) &&
       (match objGet f "Back" with
        | .obj bk => (match objGet bk "value" with | .str _ => true | _ => false)
        | _ => false)
     | _ => false)
  | _ => false

/-- The TypeScript cast `responseItem as NoteInfo` after validation: the
checked components are read off; the unchecked `tags` and `cards` coerce
with defaults (a non-array reads as empty, matching the later
`Array.isArray` guard on `cards`). -/
def toNoteInfo (v : RawValue) : NoteInfo :=
  match v with
  | .obj o =>
    { noteId := (match objGet o "noteId" with | .num n => n | _ => 0)
      tags := (match objGet o "tags" with
               | .arr ts => ts.filterMap (fun t => match t with | .str s => some s | _ => none)
               | _ => [])
      cards := (match objGet o "cards" with
                | .arr cs => cs.filterMap (fun c => match c with | .num n => some n | _ => none)
                | _ => [])
      fields := { Front := ⟨(match objGet o "fields" with
                             | .obj f => (match objGet f "Front" with
                                          | .obj fr => (match objGet fr "value" with
                                                        | .str s => s | _ => "") | _ => "")
                             | _ => "")⟩
                  Back := ⟨(match objGet o "fields" with
                            | .obj f => (match objGet f "Back" with
                                         | .obj bk => (match objGet bk "value" with
                                                       | .str s => s | _ => "") | _ => "")
                            | _ => "")⟩ } }
  | _ => { noteId := 0, tags := [], cards := [], fields := { Front := ⟨""⟩, Back := ⟨""⟩ } }

/-- `Map.prototype.set` for number keys. -/
def setAssocNat {β : Type} (m : List (Nat × β)) (k : Nat) (v : β) : List (Nat × β) :=
  match m with
  | [] => [(k, v)]
  | (k2, v2) :: rest => if k2 = k then (k, v) :: rest else (k2, v2) :: setAssocNat rest k v

/-- The deduplicated id list of `loadGlobalReadState` (lines 190-195):
all parsed ids across all contexts, `undefined` filtered out, first
occurrence order kept (`new Set`). -/
def allExistingNoteIdsOf (syncContexts : List FileSyncContext) : List Nat :=
  jsSetOfList ((syncContexts.flatMap (fun c => c.notesData)).filterMap (fun nd => nd.id))

/-- The `notesInfo` positional loop of `loadGlobalReadState` (lines
231-238): the i-th response item is stored under the i-th REQUESTED id,
and only if it passes `isValidNoteInfo`; invalid entries are skipped
silently. -/
def readExistingNotes (ids : List Nat) (infoItems : List RawValue) : List (Nat × NoteInfo) :=
  (ids.zip infoItems).foldl
    (fun acc p => if isValidNoteInfo p.2 then setAssocNat acc p.1 (toNoteInfo p.2) else acc) []

/-- The per-deck `findNotes` loop of `loadGlobalReadState` (lines 241-248),
reading one response item per deck starting at `baseIdx`. -/
def readDeckSets (items : List RawValue) (baseIdx : Nat) :
    List String → Except String (List (String × List Nat))
  | [] => .ok []
  | deckName :: rest =>
    match unwrapMultiActionResult (items.getD baseIdx .null) with
    | .error e => .error e
    | .ok actionResult =>
      match asNumberList actionResult with
      | none => .error ("AnkiConnect deck lookup for \"" ++ deckName ++
          "\" returned an unexpected result shape")
      | some nums =>
        match readDeckSets items (baseIdx + 1) rest with
        | .error e => .error e
        | .ok restSets => .ok ((deckName, jsSetOfList nums) :: restSets)

/-- `loadGlobalReadState` from `syncUtil.ts` (lines 189-254), with the
already-received multi response passed in (`multiError`/`multiResult` in
place of the network call): envelope checks throw, and the `notesInfo`
items populate `existingNotesById` via `readExistingNotes`. -/
def loadGlobalReadState (syncContexts : List FileSyncContext) (deckNames : List String)
    (multiError : Option String) (multiResult : RawValue) :
    Except String GlobalReadState :=
  let allExistingNoteIds := allExistingNoteIdsOf syncContexts
  match multiError with
  | some e =>
    if e = "" then .error "AnkiConnect multi returned an unexpected result size"
    else .error ("AnkiConnect " ++ e)
  | none =>
    match multiResult with
    | .arr items =>
      if items.length = 1 + (if allExistingNoteIds.length > 0 then 1 else 0) + deckNames.length
      then
        match unwrapMultiActionResult (items.getD 0 .null) with
        | .error e => .error e
        | .ok taggedRaw =>
          match asNumberList taggedRaw with
          | none => .error "AnkiConnect tagged-note lookup returned an unexpected result shape"
          | some taggedIds =>
            match (if allExistingNoteIds.length > 0 then
                     match unwrapMultiActionResult (items.getD 1 .null) with
                     | .error e => .error e
                     | .ok actionResult =>
                       match actionResult with
                       | .arr infoItems =>
                         if infoItems.length = allExistingNoteIds.length then
                           .ok (readExistingNotes allExistingNoteIds infoItems)
                         else .error "AnkiConnect notesInfo returned an unexpected result size"
                       | _ => .error "AnkiConnect notesInfo returned an unexpected result size"
                   else (.ok [] : Except String (List (Nat × NoteInfo)))) with
            | .error e => .error e
            | .ok existingNotesById =>
              match readDeckSets items (if allExistingNoteIds.length > 0 then 2 else 1)
                  deckNames with
              | .error e => .error e
              | .ok deckSets =>
                .ok { taggedNoteIdsAtStart := jsSetOfList taggedIds,
                      existingNotesById := existingNotesById,
                      notesInDeckByName := deckSets }
      else .error "AnkiConnect multi returned an unexpected result size"
    | _ => .error "AnkiConnect multi returned an unexpected result size"

/-- A successful multi-action item: `error` null, `result` present. -/
def ankiOkItem (result : RawValue) : RawValue :=
  .obj [("error", .null), ("result", result)]

/-- A well-shaped read-phase multi response: the tagged-note id list, the
optional `notesInfo` item list, and one id list per deck. -/
def ankiReadResponse (taggedIds : List Nat) (infoItems : Option (List RawValue))
    (deckIdLists : List (List Nat)) : RawValue :=
  .arr ([ankiOkItem (.arr (taggedIds.map .num))]
    ++ (match infoItems with | some its => [ankiOkItem (.arr its)] | none => [])
    ++ deckIdLists.map (fun l => ankiOkItem (.arr (l.map .num))))

theorem unwrap_ankiOkItem (r : RawValue) : unwrapMultiActionResult (ankiOkItem r) = .ok r := rfl

theorem asNumberList_map_num (l : List Nat) : asNumberList (.arr (l.map .num)) = some l := by
  induction l with
  | nil => rfl
  | cons n l ih =>
    simp only [asNumberList] at ih ⊢
    simp only [List.map_cons, List.foldr_cons, ih]

theorem getD_append_cons {α : Type} (pre : List α) (x : α) (M : List α) (d : α) :
    (pre ++ x :: M).getD pre.length d = x := by
  induction pre with
  | nil => rfl
  | cons a pre ih => simpa [List.getD] using ih

theorem readDeckSets_ok (pre : List RawValue) (deckNames : List String)
    (deckIdLists : List (List Nat)) (hd : deckIdLists.length = deckNames.length) :
    readDeckSets (pre ++ deckIdLists.map (fun l => ankiOkItem (.arr (l.map .num))))
        pre.length deckNames =
      .ok ((deckNames.zip deckIdLists).map (fun p => (p.1, jsSetOfList p.2))) := by
  induction deckNames generalizing pre deckIdLists with
  | nil =>
    cases deckIdLists with
    | nil => rfl
    | cons l ls => simp at hd
  | cons deckName rest ih =>
    cases deckIdLists with
    | nil => simp at hd
    | cons l ls =>
      have hd2 : ls.length = rest.length := by simpa using hd
      rw [List.map_cons, readDeckSets]
      have hget : (pre ++ ankiOkItem (.arr (l.map .num)) ::
          ls.map (fun l2 => ankiOkItem (.arr (l2.map .num)))).getD pre.length .null =
          ankiOkItem (.arr (l.map .num)) := getD_append_cons pre _ _ _
      rw [hget, unwrap_ankiOkItem]
      simp only [asNumberList_map_num]
      have hsplit : pre ++ ankiOkItem (.arr (l.map .num)) ::
          ls.map (fun l2 => ankiOkItem (.arr (l2.map .num))) =
          (pre ++ [ankiOkItem (.arr (l.map .num))]) ++
            ls.map (fun l2 => ankiOkItem (.arr (l2.map .num))) := by
        simp
      have hlen1 : pre.length + 1 = (pre ++ [ankiOkItem (.arr (l.map .num))]).length := by
        simp
      rw [hsplit, hlen1, ih (pre ++ [ankiOkItem (.arr (l.map .num))]) ls hd2]
      simp

theorem loadGlobalReadState_ok (syncContexts : List FileSyncContext) (deckNames : List String)
    (taggedIds : List Nat) (infoItems : List RawValue) (deckIdLists : List (List Nat))
    (hpos : 0 < (allExistingNoteIdsOf syncContexts).length)
    (hlen : infoItems.length = (allExistingNoteIdsOf syncContexts).length)
    (hdecks : deckIdLists.length = deckNames.length) :
    loadGlobalReadState syncContexts deckNames none
        (ankiReadResponse taggedIds (some infoItems) deckIdLists) =
      .ok { taggedNoteIdsAtStart := jsSetOfList taggedIds,
            existingNotesById := readExistingNotes (allExistingNoteIdsOf syncContexts) infoItems,
            notesInDeckByName := (deckNames.zip deckIdLists).map
              (fun p => (p.1, jsSetOfList p.2)) } := by
  unfold loadGlobalReadState ankiReadResponse
  simp only [List.singleton_append, List.cons_append, List.nil_append]
  rw [if_pos hpos]
  have hcond : (ankiOkItem (.arr (taggedIds.map .num)) :: ankiOkItem (.arr infoItems) ::
      deckIdLists.map (fun l => ankiOkItem (.arr (l.map .num)))).length =
      1 + 1 + deckNames.length := by
    simp [hdecks]
    omega
  rw [if_pos hcond]
  have hg0 : (ankiOkItem (.arr (taggedIds.map .num)) :: ankiOkItem (.arr infoItems) ::
      deckIdLists.map (fun l => ankiOkItem (.arr (l.map .num)))).getD 0 .null =
      ankiOkItem (.arr (taggedIds.map .num)) := rfl
  have hg1 : (ankiOkItem (.arr (taggedIds.map .num)) :: ankiOkItem (.arr infoItems) ::
      deckIdLists.map (fun l => ankiOkItem (.arr (l.map .num)))).getD 1 .null =
      ankiOkItem (.arr infoItems) := rfl
  rw [hg0, unwrap_ankiOkItem]
  simp only [asNumberList_map_num]
  rw [if_pos hpos, hg1, unwrap_ankiOkItem]
  dsimp only
  rw [if_pos hlen]
  dsimp only
  rw [if_pos hpos]
  have hrd := readDeckSets_ok [ankiOkItem (.arr (taggedIds.map .num)),
    ankiOkItem (.arr infoItems)] deckNames deckIdLists hdecks
  simp only [List.cons_append, List.nil_append, List.length_cons, List.length_nil] at hrd
  rw [hrd]

theorem lookup_setAssocNat_ne {β : Type} (m : List (Nat × β)) (k id : Nat) (v : β)
    (hne : id ≠ k) (hm : m.lookup id = none) : (setAssocNat m k v).lookup id = none := by
  induction m with
  | nil =>
    simp only [setAssocNat, List.lookup]
    rw [beq_eq_false_iff_ne.mpr hne]
  | cons p rest ih =>
    rcases p with ⟨k2, v2⟩
    simp only [List.lookup] at hm
    by_cases h2 : id = k2
    · rw [beq_iff_eq.mpr h2] at hm
      simp at hm
    · have hb2 : (id == k2) = false := beq_eq_false_iff_ne.mpr h2
      rw [hb2] at hm
      unfold setAssocNat
      by_cases hkk : k2 = k
      · rw [if_pos hkk]
        simp only [List.lookup]
        rw [beq_eq_false_iff_ne.mpr hne]
        exact hm
      · rw [if_neg hkk]
        simp only [List.lookup]
        rw [hb2]
        exact ih hm

theorem readExistingNotes_lookup_none {ids : List Nat} {infoItems : List RawValue} {id : Nat}
    (h : ∀ p ∈ ids.zip infoItems, p.1 = id → isValidNoteInfo p.2 = false) :
    (readExistingNotes ids infoItems).lookup id = none := by
  unfold readExistingNotes
  have hgen : ∀ (ps : List (Nat × RawValue)) (acc : List (Nat × NoteInfo)),
      acc.lookup id = none →
      (∀ p ∈ ps, p.1 = id → isValidNoteInfo p.2 = false) →
      (ps.foldl (fun acc p => if isValidNoteInfo p.2 then setAssocNat acc p.1 (toNoteInfo p.2)
        else acc) acc).lookup id = none := by
    intro ps
    induction ps with
    | nil => intro acc hacc _; exact hacc
    | cons p ps ih =>
      intro acc hacc hps
      rw [List.foldl_cons]
      refine ih _ ?_ (fun q hq => hps q (List.mem_cons_of_mem _ hq))
      by_cases hv : isValidNoteInfo p.2 = true
      · rw [if_pos hv]
        have hne : id ≠ p.1 := by
          intro he
          have hf := hps p (List.mem_cons_self _ _) he.symm
          rw [hv] at hf
          cases hf
        exact lookup_setAssocNat_ne acc p.1 id (toNoteInfo p.2) hne hacc
      · rw [if_neg hv]
        exact hacc
  exact hgen _ [] rfl h

theorem mem_jsSetOfList {y : Nat} {l : List Nat} : y ∈ jsSetOfList l ↔ y ∈ l := by
  have hgen : ∀ (m acc : List Nat), y ∈ m.foldl jsSetAdd acc ↔ y ∈ acc ∨ y ∈ m := by
    intro m
    induction m with
    | nil => intro acc; simp
    | cons x m ih =>
      intro acc
      rw [List.foldl_cons, ih (jsSetAdd acc x)]
      simp only [mem_jsSetAdd, List.mem_cons]
      tauto
  unfold jsSetOfList
  rw [hgen]
  simp

theorem reconcileStep_creates_mono (g : GlobalReadState) (c : Nat) (d : String)
    (s : ReconcileState × List Nat) (nd : ParsedNoteData) {p : PendingNoteCreation}
    (hp : p ∈ s.1.notesToCreate) : p ∈ (reconcileStep g c d s nd).1.notesToCreate := by
  cases hid : nd.id with
  | none =>
    rw [reconcileStep_id_none g c d s hid]
    exact List.mem_append_left _ hp
  | some id =>
    cases hlook : g.existingNotesById.lookup id with
    | none =>
      rw [reconcileStep_lookup_none g c d s hid hlook]
      exact List.mem_append_left _ hp
    | some info =>
      cases htag : noteHasTag info ANKI_LINK_TAG with
      | false =>
        rw [reconcileStep_untagged g c d s hid hlook htag]
        exact hp
      | true =>
        rw [reconcileStep_tagged g c d s hid hlook htag, reconcileTagged_creates]
        exact hp

theorem foldl_step_creates_mono (g : GlobalReadState) (c : Nat) (d : String)
    (nds : List ParsedNoteData) (s : ReconcileState × List Nat) {p : PendingNoteCreation}
    (hp : p ∈ s.1.notesToCreate) :
    p ∈ (nds.foldl (reconcileStep g c d) s).1.notesToCreate := by
  induction nds generalizing s with
  | nil => exact hp
  | cons nd nds ih =>
    rw [List.foldl_cons]
    exact ih _ (reconcileStep_creates_mono g c d s nd hp)

theorem foldl_step_creates_stage (g : GlobalReadState) (c : Nat) (d : String)
    (nds : List ParsedNoteData) (s : ReconcileState × List Nat)
    {nd : ParsedNoteData} {id : Nat} (hid : nd.id = some id)
    (hlook : g.existingNotesById.lookup id = none) (hnd : nd ∈ nds) :
    (⟨c, nd⟩ : PendingNoteCreation) ∈ (nds.foldl (reconcileStep g c d) s).1.notesToCreate := by
  revert hnd
  induction nds generalizing s with
  | nil => intro hnd; cases hnd
  | cons nd0 nds ih =>
    intro hnd
    rw [List.foldl_cons]
    rcases List.mem_cons.mp hnd with rfl | hmem
    · refine foldl_step_creates_mono g c d nds _ ?_
      rw [reconcileStep_lookup_none g c d s hid hlook]
      exact List.mem_append_right _ (List.mem_singleton.mpr rfl)
    · exact ih _ hmem

theorem reconcileContext_creates_mono (g : GlobalReadState) (st : ReconcileState)
    (ctxIdx : Nat) (context : FileSyncContext) {p : PendingNoteCreation}
    (hp : p ∈ st.notesToCreate) :
    p ∈ (reconcileContext g st ctxIdx context).notesToCreate := by
  unfold reconcileContext
  cases hl : st.notesInDeckByName.lookup context.deckName with
  | some d0 =>
    simpa using foldl_step_creates_mono g ctxIdx context.deckName context.notesData (st, d0) hp
  | none =>
    simpa using foldl_step_creates_mono g ctxIdx context.deckName context.notesData (st, []) hp

theorem reconcileContext_creates_stage (g : GlobalReadState) (st : ReconcileState)
    (ctxIdx : Nat) (context : FileSyncContext)
    {nd : ParsedNoteData} {id : Nat} (hid : nd.id = some id)
    (hlook : g.existingNotesById.lookup id = none) (hnd : nd ∈ context.notesData) :
    (⟨ctxIdx, nd⟩ : PendingNoteCreation) ∈
      (reconcileContext g st ctxIdx context).notesToCreate := by
  unfold reconcileContext
  cases hl : st.notesInDeckByName.lookup context.deckName with
  | some d0 =>
    simpa using foldl_step_creates_stage g ctxIdx context.deckName context.notesData (st, d0)
      hid hlook hnd
  | none =>
    simpa using foldl_step_creates_stage g ctxIdx context.deckName context.notesData (st, [])
      hid hlook hnd

theorem foldl_context_creates_mono (g : GlobalReadState) (ps : List (Nat × FileSyncContext))
    (st : ReconcileState) {p : PendingNoteCreation} (hp : p ∈ st.notesToCreate) :
    p ∈ (ps.foldl (fun st q => reconcileContext g st q.1 q.2) st).notesToCreate := by
  induction ps generalizing st with
  | nil => exact hp
  | cons q ps ih =>
    rw [List.foldl_cons]
    exact ih _ (reconcileContext_creates_mono g st q.1 q.2 hp)

theorem mem_enumFrom_of_get (l : List FileSyncContext) :
    ∀ (n i : Nat) (c : FileSyncContext), l.get? i = some c → (n + i, c) ∈ l.enumFrom n := by
  induction l with
  | nil => intro n i c h; simp at h
  | cons a l ih =>
    intro n i c h
    cases i with
    | zero =>
      rw [List.get?_cons_zero] at h
      cases h
      rw [List.enumFrom_cons]
      simpa using List.mem_cons_self _ (l.enumFrom (n + 1))
    | succ i =>
      rw [List.get?_cons_succ] at h
      rw [List.enumFrom_cons]
      have hmem := ih (n + 1) i c h
      have h2 : n + 1 + i = n + (i + 1) := by omega
      exact List.mem_cons_of_mem _ (h2 ▸ hmem)

theorem mem_enum_of_get (l : List FileSyncContext) (i : Nat) (c : FileSyncContext)
    (h : l.get? i = some c) : (i, c) ∈ l.enum := by
  simpa using mem_enumFrom_of_get l 0 i c h

theorem reconcileAll_creates_stage (g : GlobalReadState) (contexts : List FileSyncContext)
    {ctxIdx : Nat} {context : FileSyncContext} (hctx : contexts.get? ctxIdx = some context)
    {nd : ParsedNoteData} {id : Nat} (hid : nd.id = some id)
    (hlook : g.existingNotesById.lookup id = none) (hnd : nd ∈ context.notesData) :
    (⟨ctxIdx, nd⟩ : PendingNoteCreation) ∈ (reconcileAll g contexts).notesToCreate := by
  unfold reconcileAll
  have hmem : (ctxIdx, context) ∈ contexts.enum := mem_enum_of_get contexts ctxIdx context hctx
  have hgen : ∀ (ps : List (Nat × FileSyncContext)) (st : ReconcileState),
      (ctxIdx, context) ∈ ps →
      (⟨ctxIdx, nd⟩ : PendingNoteCreation) ∈
        (ps.foldl (fun st p => reconcileContext g st p.1 p.2) st).notesToCreate := by
    intro ps
    induction ps with
    | nil => intro st h; cases h
    | cons q ps ih =>
      intro st h
      rw [List.foldl_cons]
      rcases List.mem_cons.mp h with rfl | h
      · exact foldl_context_creates_mono g ps _
          (reconcileContext_creates_stage g st ctxIdx context hid hlook hnd)
      · exact ih _ h
  exact hgen contexts.enum (initialReconcileState g) hmem

/-- **C3** — Deleted-upstream recovery: for a parsed record carrying an
identifier, when the bulk fetch entry for that identifier is structurally
invalid (for instance the empty object AnkiConnect returns for a deleted
note) or simply does not validate, `loadGlobalReadState` still succeeds —
the invalid entry is skipped without raising — leaving the id absent from
`existingNotesById`, and the reconcile pass then stages a create for that
record. -/
theorem C3_deleted_upstream_recovery
    (syncContexts : List FileSyncContext) (deckNames : List String)
    (taggedIds : List Nat) (infoItems : List RawValue) (deckIdLists : List (List Nat))
    (ctxIdx : Nat) (context : FileSyncContext)
    (hctx : syncContexts.get? ctxIdx = some context)
    (nd : ParsedNoteData) (hnd : nd ∈ context.notesData)
    (id : Nat) (hid : nd.id = some id)
    (hlen : infoItems.length = (allExistingNoteIdsOf syncContexts).length)
    (hdecks : deckIdLists.length = deckNames.length)
    (hbad : ∀ p ∈ (allExistingNoteIdsOf syncContexts).zip infoItems,
      p.1 = id → isValidNoteInfo p.2 = false) :
    ∃ g : GlobalReadState,
      loadGlobalReadState syncContexts deckNames none
        (ankiReadResponse taggedIds (some infoItems) deckIdLists) = .ok g ∧
      g.existingNotesById.lookup id = none ∧
      (⟨ctxIdx, nd⟩ : PendingNoteCreation) ∈ (reconcileAll g syncContexts).notesToCreate := by
  have hidmem : id ∈ allExistingNoteIdsOf syncContexts := by
    unfold allExistingNoteIdsOf
    refine mem_jsSetOfList.mpr ?_
    refine List.mem_filterMap.mpr ⟨nd, ?_, hid⟩
    exact List.mem_flatMap.mpr ⟨context, List.get?_mem hctx, hnd⟩
  have hpos : 0 < (allExistingNoteIdsOf syncContexts).length :=
    List.length_pos_of_mem hidmem
  have hlook : (readExistingNotes (allExistingNoteIdsOf syncContexts) infoItems).lookup id =
      none := readExistingNotes_lookup_none hbad
  refine ⟨_, loadGlobalReadState_ok syncContexts deckNames taggedIds infoItems deckIdLists
    hpos hlen hdecks, hlook, ?_⟩
  exact reconcileAll_creates_stage _ syncContexts hctx hid hlook hnd

/-- A record carrying an identifier whose remote note was deleted. -/
def c3Record : ParsedNoteData :=
  ⟨some 7, 0, buildNote "f3" "b3" "d3"⟩

/-- The context holding that record. -/
def c3Context : FileSyncContext :=
  ⟨"d3", [], [c3Record], false⟩

/-- Witness for `C3_deleted_upstream_recovery`: the fetch answers the
record's id with an empty object (AnkiConnect's shape for a deleted note);
the loader succeeds, the lookup misses, and a create is staged. -/
theorem C3_deleted_upstream_recovery_witness :
    ∃ g : GlobalReadState,
      loadGlobalReadState [c3Context] ["d3"] none
        (ankiReadResponse [] (some [RawValue.obj []]) [[]]) = .ok g ∧
      g.existingNotesById.lookup 7 = none ∧
      (⟨0, c3Record⟩ : PendingNoteCreation) ∈
        (reconcileAll g [c3Context]).notesToCreate :=
  C3_deleted_upstream_recovery [c3Context] ["d3"] [] [RawValue.obj []] [[]]
    0 c3Context rfl c3Record (List.mem_singleton.mpr rfl) 7 rfl rfl rfl (by decide)

end AnkiRead

section Idempotence

/-- A note whose tags list holds the tag verbatim passes `noteHasTag`. -/
theorem noteHasTag_of_mem {note : NoteInfo} {tag : String} (h : tag ∈ note.tags) :
    noteHasTag note tag = true := by
  unfold noteHasTag
  rw [List.any_eq_true]
  exact ⟨tag, h, by simp⟩

/-- A record already converged against read state `g` for deck `deckName`:
its id resolves to a fetched note carrying the managed tag, with equal
fields, already present in the deck's tagged-note set. -/
def ConvergedRecord (g : GlobalReadState) (deckName : String) (nd : ParsedNoteData) : Prop :=
  ∃ id info, nd.id = some id ∧ g.existingNotesById.lookup id = some info ∧
    noteHasTag info ANKI_LINK_TAG = true ∧
    noteFieldsDiffer nd.note.fields info.fields = false ∧
    ∃ s0, g.notesInDeckByName.lookup deckName = some s0 ∧ info.noteId ∈ s0

theorem lookup_setAssoc_self {β : Type} (m : List (String × β)) (k : String) (v : β) :
    (setAssoc m k v).lookup k = some v := by
  induction m with
  | nil => simp [setAssoc, List.lookup]
  | cons p rest ih =>
    rcases p with ⟨k3, v3⟩
    unfold setAssoc
    by_cases hk : k3 = k
    · rw [if_pos hk]
      simp [List.lookup]
    · rw [if_neg hk]
      simp only [List.lookup]
      rw [beq_eq_false_iff_ne.mpr (fun h => hk h.symm)]
      exact ih

theorem lookup_setAssoc_ne {β : Type} (m : List (String × β)) (k k2 : String) (v : β)
    (hne : k2 ≠ k) : (setAssoc m k v).lookup k2 = m.lookup k2 := by
  induction m with
  | nil =>
    show List.lookup k2 [(k, v)] = List.lookup k2 []
    simp only [List.lookup]
    rw [beq_eq_false_iff_ne.mpr hne]
  | cons p rest ih =>
    rcases p with ⟨k3, v3⟩
    unfold setAssoc
    by_cases hk : k3 = k
    · rw [if_pos hk]
      subst hk
      have hb := beq_eq_false_iff_ne.mpr hne
      simp only [List.lookup, hb]
    · rw [if_neg hk]
      simp only [List.lookup]
      cases hbk : (k2 == k3) with
      | true => rfl
      | false => exact ih

theorem reconcileStep_noop {g : GlobalReadState} {c : Nat} {d : String}
    {s : ReconcileState × List Nat} {nd : ParsedNoteData} {id : Nat} {info : NoteInfo}
    (hid : nd.id = some id) (hlook : g.existingNotesById.lookup id = some info)
    (htag : noteHasTag info ANKI_LINK_TAG = true)
    (hfields : noteFieldsDiffer nd.note.fields info.fields = false)
    (hin : info.noteId ∈ s.2) :
    reconcileStep g c d s nd =
      ({ s.1 with seenNoteIds := jsSetAdd s.1.seenNoteIds info.noteId }, s.2) := by
  rw [reconcileStep_tagged g c d s hid hlook htag]
  unfold reconcileTagged
  have hcontains : s.2.contains info.noteId = true := by simpa using hin
  have hcond : (!s.2.contains info.noteId && !info.cards.isEmpty) = false := by
    rw [hcontains]
    rfl
  rw [hcond, hfields]
  simp

theorem foldl_step_noop (g : GlobalReadState) (c : Nat) (d : String)
    (nds : List ParsedNoteData) (s : ReconcileState × List Nat)
    (hrecs : ∀ nd ∈ nds, ∃ id info, nd.id = some id ∧
      g.existingNotesById.lookup id = some info ∧
      noteHasTag info ANKI_LINK_TAG = true ∧
      noteFieldsDiffer nd.note.fields info.fields = false ∧
      info.noteId ∈ s.2) :
    ∃ seen2, nds.foldl (reconcileStep g c d) s =
      ({ s.1 with seenNoteIds := seen2 }, s.2) := by
  induction nds generalizing s with
  | nil => exact ⟨s.1.seenNoteIds, by cases s; rfl⟩
  | cons nd nds ih =>
    obtain ⟨id, info, hid, hlook, htag, hfields, hin⟩ := hrecs nd (List.mem_cons_self _ _)
    rw [List.foldl_cons, reconcileStep_noop hid hlook htag hfields hin]
    obtain ⟨seen2, heq⟩ := ih
      ({ s.1 with seenNoteIds := jsSetAdd s.1.seenNoteIds info.noteId }, s.2)
      (fun nd2 h2 => hrecs nd2 (List.mem_cons_of_mem _ h2))
    exact ⟨seen2, heq⟩

theorem reconcileContext_noop {g : GlobalReadState} (st : ReconcileState) (ctxIdx : Nat)
    (context : FileSyncContext)
    (hconv : ∀ nd ∈ context.notesData, ConvergedRecord g context.deckName nd)
    (hmono : ∀ k s0, g.notesInDeckByName.lookup k = some s0 →
      ∃ s1, st.notesInDeckByName.lookup k = some s1 ∧ ∀ x ∈ s0, x ∈ s1) :
    ∃ seen2 map2, reconcileContext g st ctxIdx context =
      { st with seenNoteIds := seen2, notesInDeckByName := map2 } ∧
      (∀ k s0, g.notesInDeckByName.lookup k = some s0 →
        ∃ s1, map2.lookup k = some s1 ∧ ∀ x ∈ s0, x ∈ s1) := by
  unfold reconcileContext
  cases hl : st.notesInDeckByName.lookup context.deckName with
  | none =>
    cases hnds : context.notesData with
    | nil =>
      refine ⟨st.seenNoteIds, st.notesInDeckByName, by simp [hnds], hmono⟩
    | cons nd0 rest =>
      obtain ⟨id, info, _, _, _, _, s0, hg, _⟩ :=
        hconv nd0 (by rw [hnds]; exact List.mem_cons_self _ _)
      obtain ⟨s1, hs1, _⟩ := hmono context.deckName s0 hg
      rw [hl] at hs1
      cases hs1
  | some d0 =>
    have hrecs : ∀ nd ∈ context.notesData, ∃ id info, nd.id = some id ∧
        g.existingNotesById.lookup id = some info ∧
        noteHasTag info ANKI_LINK_TAG = true ∧
        noteFieldsDiffer nd.note.fields info.fields = false ∧
        info.noteId ∈ ((st, d0) : ReconcileState × List Nat).2 := by
      intro nd hnd
      obtain ⟨id, info, hid, hlook, htag, hfields, s0, hg, hmem0⟩ := hconv nd hnd
      obtain ⟨s1, hs1, hsub⟩ := hmono context.deckName s0 hg
      rw [hl] at hs1
      cases hs1
      exact ⟨id, info, hid, hlook, htag, hfields, hsub _ hmem0⟩
    obtain ⟨seen2, heq⟩ := foldl_step_noop g ctxIdx context.deckName context.notesData
      (st, d0) hrecs
    dsimp only
    rw [heq]
    refine ⟨seen2, setAssoc st.notesInDeckByName context.deckName d0, rfl, ?_⟩
    intro k s0 hg
    by_cases hk : k = context.deckName
    · subst hk
      obtain ⟨s1, hs1, hsub⟩ := hmono context.deckName s0 hg
      rw [hl] at hs1
      cases hs1
      exact ⟨d0, lookup_setAssoc_self _ _ _, hsub⟩
    · rw [lookup_setAssoc_ne _ _ _ _ hk]
      exact hmono k s0 hg

theorem reconcileAll_noop (g : GlobalReadState) (contexts : List FileSyncContext)
    (hconv : ∀ ctx ∈ contexts, ∀ nd ∈ ctx.notesData, ConvergedRecord g ctx.deckName nd) :
    ∃ seen2 map2, reconcileAll g contexts =
      { initialReconcileState g with seenNoteIds := seen2, notesInDeckByName := map2 } := by
  unfold reconcileAll
  have hgen : ∀ (ps : List (Nat × FileSyncContext)) (st : ReconcileState),
      (∀ p ∈ ps, ∀ nd ∈ p.2.notesData, ConvergedRecord g p.2.deckName nd) →
      (∀ k s0, g.notesInDeckByName.lookup k = some s0 →
        ∃ s1, st.notesInDeckByName.lookup k = some s1 ∧ ∀ x ∈ s0, x ∈ s1) →
      ∃ seen2 map2, ps.foldl (fun st p => reconcileContext g st p.1 p.2) st =
        { st with seenNoteIds := seen2, notesInDeckByName := map2 } := by
    intro ps
    induction ps with
    | nil =>
      intro st _ _
      exact ⟨st.seenNoteIds, st.notesInDeckByName, rfl⟩
    | cons q ps ih =>
      intro st hc hm
      rw [List.foldl_cons]
      obtain ⟨seen2, map2, heq, hm2⟩ := reconcileContext_noop st q.1 q.2
        (hc q (List.mem_cons_self _ _)) hm
      rw [heq]
      obtain ⟨seen3, map3, heq3⟩ := ih
        { st with seenNoteIds := seen2, notesInDeckByName := map2 }
        (fun p hp => hc p (List.mem_cons_of_mem _ hp)) hm2
      exact ⟨seen3, map3, by rw [heq3]⟩
  exact hgen contexts.enum (initialReconcileState g)
    (fun p hp => hconv p.2 (by
      have hp2 : p.2 ∈ contexts.enum.map Prod.snd := List.mem_map_of_mem Prod.snd hp
      simpa [List.enum_map_snd] using hp2))
    (fun k s0 h => ⟨s0, h, fun x hx => hx⟩)

/-- **C1** (amended) — The second formulation of the claim holds under the
conditions the first run establishes only with a one-run lag: when every
record is already converged (resolves to a tagged note with equal fields,
already in its deck set) and every tagged-at-start id is resolved by some
record, re-running the reconciliation stages no create, mutation, addTag
or delete, the whole mutation batch is empty, and the summary is
`{added 0, modified 0, deleted 0}`. -/
theorem C1_idempotence_amended (g : GlobalReadState) (contexts : List FileSyncContext)
    (hconv : ∀ ctx ∈ contexts, ∀ nd ∈ ctx.notesData, ConvergedRecord g ctx.deckName nd)
    (htagged : ∀ t ∈ g.taggedNoteIdsAtStart, t ∈ resolvedIds g contexts) :
    (reconcileAll g contexts).notesToCreate = [] ∧
    (reconcileAll g contexts).noteMutationActions = [] ∧
    (reconcileAll g contexts).noteIdsToTag = [] ∧
    orphanedNoteIds g (reconcileAll g contexts) = [] ∧
    buildMutationActions (reconcileAll g contexts)
      (orphanedNoteIds g (reconcileAll g contexts)) = [] ∧
    syncSummaryOf g contexts = ⟨0, 0, 0⟩ := by
  obtain ⟨seen2, map2, heq⟩ := reconcileAll_noop g contexts hconv
  have hcre : (reconcileAll g contexts).notesToCreate = [] := by
    rw [heq]; rfl
  have hact : (reconcileAll g contexts).noteMutationActions = [] := by
    rw [heq]; rfl
  have htg : (reconcileAll g contexts).noteIdsToTag = [] := by
    rw [heq]; rfl
  have hmod : (reconcileAll g contexts).totalModified = 0 := by
    rw [heq]; rfl
  have horph : orphanedNoteIds g (reconcileAll g contexts) = [] := by
    rw [orphanedNoteIds_formula]
    apply List.filter_eq_nil.mpr
    intro t ht
    simp [htagged t ht]
  refine ⟨hcre, hact, htg, horph, ?_, ?_⟩
  · unfold buildMutationActions
    rw [hcre, hact, htg, horph]
    rfl
  · unfold syncSummaryOf
    rw [hcre, hmod, horph]
    rfl

/-- A converged read state for the idempotence witness: note 9 tagged,
fields matching, in deck "dw". -/
def c1Info : NoteInfo :=
  ⟨9, [ANKI_LINK_TAG], [90], ⟨⟨"fw"⟩, ⟨"bw"⟩⟩⟩

/-- Read state holding `c1Info` as the only (tagged, resolved) note. -/
def c1ReadState : GlobalReadState :=
  ⟨[9], [(9, c1Info)], [("dw", [9])]⟩

/-- A record already converged against `c1ReadState`. -/
def c1Record : ParsedNoteData :=
  ⟨some 9, 0, buildNote "fw" "bw" "dw"⟩

/-- The context holding `c1Record`. -/
def c1Context : FileSyncContext :=
  ⟨"dw", [], [c1Record], false⟩

/-- Witness for `C1_idempotence_amended`: a fully converged one-record
state stages nothing and reports an all-zero summary. -/
theorem C1_idempotence_amended_witness :
    buildMutationActions (reconcileAll c1ReadState [c1Context])
      (orphanedNoteIds c1ReadState (reconcileAll c1ReadState [c1Context])) = [] ∧
    syncSummaryOf c1ReadState [c1Context] = ⟨0, 0, 0⟩ := by
  have h := C1_idempotence_amended c1ReadState [c1Context]
    (by
      intro ctx hc nd hn
      rcases List.mem_singleton.mp hc with rfl
      rcases List.mem_singleton.mp hn with rfl
      exact ⟨9, c1Info, rfl, by decide, noteHasTag_of_mem (by decide), by decide,
        [9], rfl, by decide⟩)
    (by decide)
  exact ⟨h.2.2.2.2.1, h.2.2.2.2.2⟩

/-- Modelled from the spec: a note as stored by the record store, with the
group (deck) it lives in; note ids and card ids are naturals. -/
structure RemoteNote where
  noteId : Nat
  tags : List String
  cards : List Nat
  fields : NoteInfoFields
  deck : String
deriving DecidableEq, Repr

/-- Modelled from the spec: the fetched view of a remote note. -/
def remoteNoteInfo (n : RemoteNote) : NoteInfo :=
  ⟨n.noteId, n.tags, n.cards, n.fields⟩

/-- Modelled from the spec: one per-note mutation applied to one note.
`changeDeck` moves the notes owning the listed cards; `updateNoteFields`
replaces the fields of the addressed note. -/
def applyMutNote (a : MutAction) (n : RemoteNote) : RemoteNote :=
  match a with
  | .changeDeck cards deck =>
    if cards.any (fun c => n.cards.contains c) then { n with deck := deck } else n
  | .updateNoteFields id fields =>
    if n.noteId = id then { n with
      fields := ⟨⟨fields.Front⟩, ⟨fields.Back⟩⟩ } else n

/-- Modelled from the spec: `addTags` adds the tag once. -/
def addTagNote (n : RemoteNote) (tag : String) : RemoteNote :=
  if n.tags.contains tag then n else { n with tags := n.tags ++ [tag] }

/-- Modelled from the spec: a note created from an `addNotes` payload under
a fresh id, holding one fresh card. -/
def mkCreatedNote (note : Note) (id : Nat) : RemoteNote :=
  ⟨id, note.tags, [id], ⟨⟨note.fields.Front⟩, ⟨note.fields.Back⟩⟩, note.deckName⟩

/-- Modelled from the spec: apply one batch action to the store, consuming
fresh ids for creations. -/
def applyBatchAction (s : List RemoteNote × List Nat) (a : BatchAction) :
    List RemoteNote × List Nat :=
  match a with
  | .addNotes notes =>
    (s.1 ++ (notes.zip s.2).map (fun p => mkCreatedNote p.1 p.2), s.2.drop notes.length)
  | .mut m => (s.1.map (applyMutNote m), s.2)
  | .addTags ids tag =>
    (s.1.map (fun n => if ids.contains n.noteId then addTagNote n tag else n), s.2)
  | .deleteNotes ids => (s.1.filter (fun n => !ids.contains n.noteId), s.2)

/-- Modelled from the spec: JS-Set deck-name dedup over the contexts. -/
def decksInUse (contexts : List FileSyncContext) : List String :=
  contexts.foldl (fun acc c => if acc.contains c.deckName then acc else acc ++ [c.deckName]) []

/-- Modelled from the spec: the read state the three find/fetch queries of
`loadGlobalReadState` produce from a remote store — tagged ids, the fetch
keyed by each requested id, and per deck the ids of TAGGED notes in that
deck (the deck query carries the tag predicate too). -/
def readStateOf (remote : List RemoteNote) (contexts : List FileSyncContext) :
    GlobalReadState :=
  { taggedNoteIdsAtStart :=
      (remote.filter (fun n => noteHasTag (remoteNoteInfo n) ANKI_LINK_TAG)).map
        (fun n => n.noteId)
    existingNotesById :=
      (allExistingNoteIdsOf contexts).filterMap
        (fun id => (remote.find? (fun n => n.noteId == id)).map
          (fun n => (id, remoteNoteInfo n)))
    notesInDeckByName :=
      (decksInUse contexts).map (fun dk =>
        (dk, (remote.filter (fun n =>
          noteHasTag (remoteNoteInfo n) ANKI_LINK_TAG && n.deck == dk)).map
            (fun n => n.noteId))) }

/-- The mutation batch one run stages from a remote store. -/
def runBatchActions (remote : List RemoteNote) (contexts : List FileSyncContext) :
    List BatchAction :=
  buildMutationActions (reconcileAll (readStateOf remote contexts) contexts)
    (orphanedNoteIds (readStateOf remote contexts)
      (reconcileAll (readStateOf remote contexts) contexts))

/-- The remote store after one run's batch is applied. -/
def remoteAfterRun (remote : List RemoteNote) (contexts : List FileSyncContext)
    (freshIds : List Nat) : List RemoteNote :=
  ((runBatchActions remote contexts).foldl applyBatchAction (remote, freshIds)).1

/-- The summary one run reports from a remote store. -/
def runSummary (remote : List RemoteNote) (contexts : List FileSyncContext) : SyncSummary :=
  syncSummaryOf (readStateOf remote contexts) contexts

/-- The remote store of the idempotence counterexample: note 7 exists in
deck "d" with stale fields but without the managed tag. -/
def cx1Remote : List RemoteNote :=
  [⟨7, [], [70], ⟨⟨"old"⟩, ⟨"b"⟩⟩, "d"⟩]

/-- The vault record of the counterexample, referencing note 7 with
updated fields. -/
def cx1Record : ParsedNoteData :=
  ⟨some 7, 0, buildNote "new" "b" "d"⟩

/-- The counterexample context (no creations, so the vault is unchanged by
the first run). -/
def cx1Context : FileSyncContext :=
  ⟨"d", [], [cx1Record], false⟩

/-- The counterexample note after the first run's `addTags` batch. -/
def cx2Info : NoteInfo :=
  ⟨7, [ANKI_LINK_TAG], [70], ⟨⟨"old"⟩, ⟨"b"⟩⟩⟩

/-- The read state the second run loads. -/
def cx2ReadState : GlobalReadState :=
  ⟨[7], [(7, cx2Info)], [("d", [7])]⟩

theorem cx1_after : remoteAfterRun cx1Remote [cx1Context] [] =
    [⟨7, [ANKI_LINK_TAG], [70], ⟨⟨"old"⟩, ⟨"b"⟩⟩, "d"⟩] := by
  decide

theorem cx1_read2 :
    readStateOf [⟨7, [ANKI_LINK_TAG], [70], ⟨⟨"old"⟩, ⟨"b"⟩⟩, "d"⟩] [cx1Context] =
      cx2ReadState := by
  have htag2 : noteHasTag ⟨7, [ANKI_LINK_TAG], [70], ⟨⟨"old"⟩, ⟨"b"⟩⟩⟩ ANKI_LINK_TAG =
      true := noteHasTag_of_mem (by decide)
  simp [readStateOf, cx2ReadState, cx2Info, remoteNoteInfo, htag2, decksInUse,
    allExistingNoteIdsOf, jsSetOfList, jsSetAdd, cx1Context, cx1Record, List.find?]

/-- The second-run reconcile state: one `updateNoteFields` staged. -/
def cx2State : ReconcileState :=
  { totalModified := 1, seenNoteIds := [7],
    noteMutationActions := [.updateNoteFields 7 ⟨"new", "b"⟩], noteIdsToTag := [],
    notesToCreate := [], notesInDeckByName := [("d", [7])] }

theorem cx2_summary : syncSummaryOf cx2ReadState [cx1Context] = ⟨0, 1, 0⟩ := by
  have htag2 : noteHasTag cx2Info ANKI_LINK_TAG = true := noteHasTag_of_mem (by decide)
  have hstep : reconcileStep cx2ReadState 0 "d"
      (initialReconcileState cx2ReadState, [7]) cx1Record = (cx2State, [7]) := by
    rw [reconcileStep_tagged cx2ReadState 0 "d"
      (initialReconcileState cx2ReadState, [7])
      (show cx1Record.id = some 7 from rfl)
      (show List.lookup 7 cx2ReadState.existingNotesById = some cx2Info from rfl) htag2]
    decide
  have hall : reconcileAll cx2ReadState [cx1Context] = cx2State := by
    unfold reconcileAll
    rw [show ([cx1Context] : List FileSyncContext).enum = [(0, cx1Context)] from rfl,
      List.foldl_cons, List.foldl_nil]
    unfold reconcileContext
    rw [show List.lookup cx1Context.deckName
      (initialReconcileState cx2ReadState).notesInDeckByName = some [7] from rfl]
    dsimp only
    rw [show cx1Context.notesData = [cx1Record] from rfl, List.foldl_cons, List.foldl_nil,
      show cx1Context.deckName = "d" from rfl, hstep]
    decide
  unfold syncSummaryOf
  rw [hall]
  decide

/-- **C1** (counterexample) — Idempotence fails through the adopt path:
with one untagged remote note whose fields differ from the vault, the
first run reports `{0, 0, 0}` while staging only `addTags`; after that
batch is applied — with no remote-side interference — the second run
stages an `updateNoteFields` and reports `{added 0, modified 1,
deleted 0}`, not the all-zero summary the claim requires. -/
theorem C1_idempotence_counterexample :
    runSummary cx1Remote [cx1Context] = ⟨0, 0, 0⟩ ∧
    runBatchActions cx1Remote [cx1Context] =
      [BatchAction.addTags [7] ANKI_LINK_TAG] ∧
    runSummary (remoteAfterRun cx1Remote [cx1Context] []) [cx1Context] = ⟨0, 1, 0⟩ ∧
    runSummary (remoteAfterRun cx1Remote [cx1Context] []) [cx1Context] ≠ ⟨0, 0, 0⟩ := by
  have h12 : runSummary cx1Remote [cx1Context] = ⟨0, 0, 0⟩ ∧
      runBatchActions cx1Remote [cx1Context] =
        [BatchAction.addTags [7] ANKI_LINK_TAG] := by decide
  have h3 : runSummary (remoteAfterRun cx1Remote [cx1Context] []) [cx1Context] =
      ⟨0, 1, 0⟩ := by
    rw [runSummary, cx1_after, cx1_read2]
    exact cx2_summary
  refine ⟨h12.1, h12.2, h3, ?_⟩
  rw [h3]
  decide

end Idempotence

end AnkiLink
